import Mathlib

/-!
Verification of the attention subsystem and GPT model of `src/model.py`
(a configurable decoder-only transformer with dense, fused, grouped-query
and block-sparse attention variants), via a shallow embedding in Lean.

Machine floats are modelled by rationals; the transcendental primitives
(exp, log, cos, sin, 1/sqrt, pow, gelu) that PyTorch provides are passed
as abstract function parameters, since none of the verified properties
depend on their values.
-/

namespace ModelPy

/-! ## Attention mechanism selection (CausalSelfAttention.__init__, model.py lines 71-136) -/

/-- The three values the private field `_active_attn_mechanism` can take. -/
inductive AttnMechanism where
  | standard
  | flash
  | parallelNsaFlaModule
  deriving DecidableEq, Repr

/-- The slice of `GPTConfig` (plus runtime facts) that `CausalSelfAttention.__init__`
reads to resolve the attention mechanism and size the QKV projection.
`sdpaAvailable` models `hasattr(torch.nn.functional, 'scaled_dot_product_attention')`;
`nsaAvailable` models whether the `native_sparse_attention` import succeeded. -/
structure AttnConfig where
  nEmbd : ℕ
  nHead : ℕ
  useFlashAttnFlag : Bool
  sdpaAvailable : Bool
  useSparseAttn : Bool
  useMqa : Bool
  mqaKvNHead : ℕ
  deriving Repr

/-- The state of a constructed `CausalSelfAttention` that the claims observe:
the resolved mechanism, the out-features of `c_attn` (0 when the sparse path
owns its projections externally), and the effective number of K/V heads. -/
structure AttnState where
  activeAttnMechanism : AttnMechanism
  cAttnOutFeatures : ℕ
  mqaKvNHead : ℕ
  deriving Repr

/-- Shallow embedding of `CausalSelfAttention.__init__` (model.py lines 71-136):
the asserts become `Except.error`; `use_flash_attn` is the config flag conjoined
with availability of the scaled-dot-product-attention primitive (lines 79-80);
the sparse flag wins first (line 90), otherwise flash iff `use_flash_attn`
(lines 120-122), else the default `standard` (line 88). The QKV projection
out-features follow lines 112 and 115. Constructing the sparse module without
the dependency fails (the module-level import guard, lines 23-27). -/
def causalSelfAttentionInit (nsaAvailable : Bool) (c : AttnConfig) :
    Except String AttnState :=
  if c.nEmbd % c.nHead ≠ 0 then .error "AssertionError: n_embd % n_head != 0"
  else
    let headDim := c.nEmbd / c.nHead
    let useFlashAttn := c.useFlashAttnFlag && c.sdpaAvailable
    if c.useSparseAttn then
      if nsaAvailable then
        .ok { activeAttnMechanism := .parallelNsaFlaModule
              cAttnOutFeatures := 0
              mqaKvNHead := c.nHead }
      else .error "NameError: NativeSparseAttention is not defined"
    else
      if c.useMqa then
        if c.nHead % c.mqaKvNHead ≠ 0 then
          .error "AssertionError: n_head must be divisible by mqa_kv_n_head for GQA"
        else
          .ok { activeAttnMechanism := if useFlashAttn then .flash else .standard
                cAttnOutFeatures := c.nEmbd + 2 * c.mqaKvNHead * headDim
                mqaKvNHead := c.mqaKvNHead }
      else
        .ok { activeAttnMechanism := if useFlashAttn then .flash else .standard
              cAttnOutFeatures := 3 * c.nEmbd
              mqaKvNHead := c.nHead }

/-- Embedding of the `active_attention_mechanism` property (model.py lines 65-68):
it returns the stored field, resolved once at construction. -/
def activeAttentionMechanism (s : AttnState) : AttnMechanism :=
  s.activeAttnMechanism

/-- C1. For every configuration, the selector is resolved at construction with
precedence sparse > fused > dense: sparse wins regardless of the other flags;
otherwise fused is chosen iff the fused flag is set and the SDPA primitive is
available, else dense ("standard"); fused-requested-but-unavailable raises no
error and is observable only through `active_attention_mechanism`. -/
theorem attention_selector_precedence (nsaAvailable : Bool) (c : AttnConfig)
    (hdiv : c.nEmbd % c.nHead = 0)
    (hsparse : c.useSparseAttn = true → nsaAvailable = true)
    (hmqa : c.useMqa = true → c.nHead % c.mqaKvNHead = 0) :
    ∃ s : AttnState, causalSelfAttentionInit nsaAvailable c = .ok s ∧
      (c.useSparseAttn = true →
        activeAttentionMechanism s = .parallelNsaFlaModule) ∧
      (c.useSparseAttn = false →
        (activeAttentionMechanism s = .flash ↔
          (c.useFlashAttnFlag = true ∧ c.sdpaAvailable = true)) ∧
        (¬ (c.useFlashAttnFlag = true ∧ c.sdpaAvailable = true) →
          activeAttentionMechanism s = .standard)) := by
  unfold causalSelfAttentionInit activeAttentionMechanism
  rw [if_neg (by simp [hdiv])]
  cases hs : c.useSparseAttn with
  | true =>
    rw [if_pos rfl, if_pos (hsparse hs)]
    exact ⟨_, rfl, fun _ => rfl, fun h => by simp at h⟩
  | false =>
    rw [if_neg (by simp)]
    cases hm : c.useMqa with
    | true =>
      rw [if_pos rfl, if_neg (by simp [hmqa hm])]
      refine ⟨_, rfl, fun h => by simp at h, fun _ => ⟨?_, ?_⟩⟩
      · constructor
        · intro h
          by_contra hcon
          rw [show (c.useFlashAttnFlag && c.sdpaAvailable) = false by
            simpa [Bool.and_eq_true] using hcon] at h
          simp at h
        · intro ⟨h1, h2⟩
          simp [h1, h2]
      · intro hcon
        rw [show (c.useFlashAttnFlag && c.sdpaAvailable) = false by
          simpa [Bool.and_eq_true] using hcon]
        rfl
    | false =>
      rw [if_neg (by simp)]
      refine ⟨_, rfl, fun h => by simp at h, fun _ => ⟨?_, ?_⟩⟩
      · constructor
        · intro h
          by_contra hcon
          rw [show (c.useFlashAttnFlag && c.sdpaAvailable) = false by
            simpa [Bool.and_eq_true] using hcon] at h
          simp at h
        · intro ⟨h1, h2⟩
          simp [h1, h2]
      · intro hcon
        rw [show (c.useFlashAttnFlag && c.sdpaAvailable) = false by
          simpa [Bool.and_eq_true] using hcon]
        rfl

/-- Witness for C1: concrete config requesting fused attention while the
primitive is unavailable resolves, without error, to the standard mechanism. -/
theorem attention_selector_precedence_witness :
    ∃ s : AttnState,
      causalSelfAttentionInit false
        { nEmbd := 8, nHead := 2, useFlashAttnFlag := true, sdpaAvailable := false,
          useSparseAttn := false, useMqa := false, mqaKvNHead := 1 } = .ok s ∧
      (false = true → activeAttentionMechanism s = .parallelNsaFlaModule) ∧
      (false = false →
        (activeAttentionMechanism s = .flash ↔ (true = true ∧ false = true)) ∧
        (¬ (true = true ∧ false = true) → activeAttentionMechanism s = .standard)) :=
  attention_selector_precedence false
    { nEmbd := 8, nHead := 2, useFlashAttnFlag := true, sdpaAvailable := false,
      useSparseAttn := false, useMqa := false, mqaKvNHead := 1 }
    (by decide) (by decide) (by decide)

/-! ## Block-sparse index generation
(CausalSelfAttention._generate_causal_sparse_indices, model.py lines 148-177).
Randomness (`torch.randperm`) is modelled by a parameter `rp b t h n` giving
the permutation of `[0, n)` drawn at loop iteration `(b, t, h)`; validity of
the generator (`rp b t h n` is a permutation of `range n`) is a hypothesis. -/

/-- Sentinel used for padding slots: one past the highest block index valid
anywhere in the sequence (model.py lines 149-150). -/
def sentinelIdx (T blockSize : ℕ) : ℕ := (T - 1) / blockSize + 1

/-- Number of blocks attendable from position `t` (model.py lines 159-160). -/
def numAvailableBlocks (blockSize t : ℕ) : ℕ := t / blockSize + 1

/-- The block indices selected for one `(b, t, h)` entry, before padding and
sorting (model.py lines 162-171). `rp` is the `torch.randperm` draw. -/
def selectedBlockIdxs (S blockSize : ℕ) (rp : ℕ → List ℕ) (t : ℕ) : List ℕ :=
  let avail := numAvailableBlocks blockSize t
  if avail ≤ 0 then []
  else if avail = 1 then [0]
  else (rp avail).take (min S avail)

/-- The count recorded for one `(b, t, h)` entry (model.py lines 163, 166, 171). -/
def selectedCount (S blockSize : ℕ) (t : ℕ) : ℕ :=
  let avail := numAvailableBlocks blockSize t
  if avail ≤ 0 then 0
  else if avail = 1 then 1
  else min S avail

/-- One row of the `block_indices` tensor after the final ascending sort:
the selected indices are written over the first `count` slots of a row
prefilled with the sentinel, then the whole row is sorted (model.py
lines 152-154, 173, 176). For `S = 0` the Python code raises on the
single-available-block branch (it assigns one element into an empty slice);
all claims assume `S ≥ 1`. -/
def entrySlots (T S blockSize : ℕ) (rp : ℕ → List ℕ) (t : ℕ) : List ℕ :=
  let sel := selectedBlockIdxs S blockSize rp t
  let cnt := selectedCount S blockSize t
  List.insertionSort (· ≤ ·) (sel ++ List.replicate (S - cnt) (sentinelIdx T blockSize))

/-- The `block_indices` tensor of `_generate_causal_sparse_indices`, as nested
lists indexed `[b][t][h][slot]`. -/
def genBlockIndices (B T H S blockSize : ℕ) (rp : ℕ → ℕ → ℕ → ℕ → List ℕ) :
    List (List (List (List ℕ))) :=
  (List.range B).map fun b => (List.range T).map fun t => (List.range H).map fun h =>
    entrySlots T S blockSize (rp b t h) t

/-- The `block_counts` tensor of `_generate_causal_sparse_indices`, indexed
`[b][t][h]`. -/
def genBlockCounts (B T H S blockSize : ℕ) (rp : ℕ → ℕ → ℕ → ℕ → List ℕ) :
    List (List (List ℕ)) :=
  (List.range B).map fun b => (List.range T).map fun t => (List.range H).map fun _ =>
    selectedCount S blockSize t

/-- Validity of the randomness source: each draw of size `n` is a permutation
of `[0, n)`, which is the contract of `torch.randperm`. -/
def ValidRandperm (rp : ℕ → ℕ → ℕ → ℕ → List ℕ) : Prop :=
  ∀ b t h n, (rp b t h n).Perm (List.range n)

/-- Accessor: the slot row `block_indices[b, t, h, :]`. -/
def genIdxEntry (B T H S blockSize : ℕ) (rp : ℕ → ℕ → ℕ → ℕ → List ℕ)
    (b t h : ℕ) : List ℕ :=
  (((genBlockIndices B T H S blockSize rp).getD b []).getD t []).getD h []

/-- Accessor: the scalar `block_counts[b, t, h]`. -/
def genCntEntry (B T H S blockSize : ℕ) (rp : ℕ → ℕ → ℕ → ℕ → List ℕ)
    (b t h : ℕ) : ℕ :=
  (((genBlockCounts B T H S blockSize rp).getD b []).getD t []).getD h 0

lemma getD_range_map {α : Type} (f : ℕ → α) (d : α) {n i : ℕ} (h : i < n) :
    ((List.range n).map f).getD i d = f i := by
  rw [List.getD_eq_getElem?_getD, List.getElem?_map, List.getElem?_range h]
  rfl

lemma selectedBlockIdxs_length (S blockSize : ℕ) (rp : ℕ → List ℕ) (t : ℕ)
    (hrp : ∀ n, (rp n).Perm (List.range n)) :
    (selectedBlockIdxs S blockSize rp t).length = selectedCount S blockSize t := by
  unfold selectedBlockIdxs selectedCount numAvailableBlocks
  have h0 : ¬ (t / blockSize + 1 ≤ 0) := Nat.not_succ_le_zero _
  rw [if_neg h0, if_neg h0]
  by_cases h1 : t / blockSize + 1 = 1
  · rw [if_pos h1, if_pos h1]
    rfl
  · rw [if_neg h1, if_neg h1, List.length_take, (hrp _).length_eq, List.length_range]
    omega

lemma selectedBlockIdxs_mem_lt (S blockSize : ℕ) (rp : ℕ → List ℕ) (t : ℕ)
    (hrp : ∀ n, (rp n).Perm (List.range n))
    {x : ℕ} (hx : x ∈ selectedBlockIdxs S blockSize rp t) :
    x < numAvailableBlocks blockSize t := by
  unfold selectedBlockIdxs at hx
  unfold numAvailableBlocks at hx ⊢
  have h0 : ¬ (t / blockSize + 1 ≤ 0) := Nat.not_succ_le_zero _
  rw [if_neg h0] at hx
  by_cases h1 : t / blockSize + 1 = 1
  · rw [if_pos h1] at hx
    simp at hx
    omega
  · rw [if_neg h1] at hx
    have hmem := List.mem_of_mem_take hx
    have := ((hrp (t / blockSize + 1)).mem_iff).mp hmem
    exact List.mem_range.mp this

lemma sorted_replicate_le (m c : ℕ) : (List.replicate m c).Sorted (· ≤ ·) := by
  induction m with
  | zero => simp
  | succ n ih =>
    rw [List.replicate_succ, List.sorted_cons]
    exact ⟨fun b hb => le_of_eq (List.eq_of_mem_replicate hb).symm, ih⟩

lemma insertionSort_append_replicate (l : List ℕ) (m c : ℕ)
    (hl : ∀ x ∈ l, x ≤ c) :
    List.insertionSort (· ≤ ·) (l ++ List.replicate m c) =
      List.insertionSort (· ≤ ·) l ++ List.replicate m c := by
  have hperm : List.Perm (List.insertionSort (· ≤ ·) (l ++ List.replicate m c))
      (List.insertionSort (· ≤ ·) l ++ List.replicate m c) :=
    (List.perm_insertionSort _ _).trans
      (List.Perm.append_right _ (List.perm_insertionSort _ _).symm)
  have hs1 : (List.insertionSort (· ≤ ·) (l ++ List.replicate m c)).Sorted (· ≤ ·) :=
    List.sorted_insertionSort _ _
  have hs2 : (List.insertionSort (· ≤ ·) l ++ List.replicate m c).Sorted (· ≤ ·) := by
    refine List.pairwise_append.mpr
      ⟨List.sorted_insertionSort _ _, sorted_replicate_le m c, ?_⟩
    intro a ha b hb
    rw [List.eq_of_mem_replicate hb]
    exact hl a ((List.perm_insertionSort _ _).mem_iff.mp ha)
  exact List.eq_of_perm_of_sorted hperm hs1 hs2

/-- Structural form of a sorted row: the sorted selection, then the padding. -/
lemma entrySlots_eq (T S blockSize t : ℕ) (rp : ℕ → List ℕ)
    (hrp : ∀ n, (rp n).Perm (List.range n)) (ht : t < T) (hbs : 1 ≤ blockSize) :
    entrySlots T S blockSize rp t =
      List.insertionSort (· ≤ ·) (selectedBlockIdxs S blockSize rp t) ++
        List.replicate (S - selectedCount S blockSize t) (sentinelIdx T blockSize) := by
  unfold entrySlots
  apply insertionSort_append_replicate
  intro x hx
  have h1 := selectedBlockIdxs_mem_lt S blockSize rp t hrp hx
  have h2 : numAvailableBlocks blockSize t ≤ sentinelIdx T blockSize := by
    unfold numAvailableBlocks sentinelIdx
    have : t ≤ T - 1 := by omega
    exact Nat.succ_le_succ (Nat.div_le_div_right this)
  omega

lemma genIdxEntry_eq (B T H S blockSize : ℕ) (rp : ℕ → ℕ → ℕ → ℕ → List ℕ)
    {b t h : ℕ} (hb : b < B) (ht : t < T) (hh : h < H) :
    genIdxEntry B T H S blockSize rp b t h = entrySlots T S blockSize (rp b t h) t := by
  unfold genIdxEntry genBlockIndices
  rw [getD_range_map _ _ hb, getD_range_map _ _ ht, getD_range_map _ _ hh]

lemma genCntEntry_eq (B T H S blockSize : ℕ) (rp : ℕ → ℕ → ℕ → ℕ → List ℕ)
    {b t h : ℕ} (hb : b < B) (ht : t < T) (hh : h < H) :
    genCntEntry B T H S blockSize rp b t h = selectedCount S blockSize t := by
  unfold genCntEntry genBlockCounts
  rw [getD_range_map _ _ hb, getD_range_map _ _ ht, getD_range_map _ _ hh]

/-- C4. For every batch element, position and key/value head: selected block
indices are a subset of `[0, t / blockSize]`; the recorded count is at most
`min S (t / blockSize + 1)`; when exactly one block is available the selection
is `[0]` with count 1; and in the emitted row the selected indices come first,
sorted ascending, followed only by padding. -/
theorem sparse_selection_invariants
    (B T H S blockSize : ℕ) (rp : ℕ → ℕ → ℕ → ℕ → List ℕ)
    (hrp : ValidRandperm rp) (hS : 1 ≤ S) (hbs : 1 ≤ blockSize)
    (b t h : ℕ) (hb : b < B) (ht : t < T) (hh : h < H) :
    (∀ x ∈ selectedBlockIdxs S blockSize (rp b t h) t, x ≤ t / blockSize) ∧
    genCntEntry B T H S blockSize rp b t h ≤ min S (t / blockSize + 1) ∧
    (numAvailableBlocks blockSize t = 1 →
      selectedBlockIdxs S blockSize (rp b t h) t = [0] ∧
      genCntEntry B T H S blockSize rp b t h = 1) ∧
    List.Sorted (· ≤ ·)
      (List.take (genCntEntry B T H S blockSize rp b t h)
        (genIdxEntry B T H S blockSize rp b t h)) ∧
    List.Perm
      (List.take (genCntEntry B T H S blockSize rp b t h)
        (genIdxEntry B T H S blockSize rp b t h))
      (selectedBlockIdxs S blockSize (rp b t h) t) ∧
    List.drop (genCntEntry B T H S blockSize rp b t h)
        (genIdxEntry B T H S blockSize rp b t h) =
      List.replicate (S - genCntEntry B T H S blockSize rp b t h)
        (sentinelIdx T blockSize) := by
  have hidx := genIdxEntry_eq B T H S blockSize rp hb ht hh
  have hcnt := genCntEntry_eq B T H S blockSize rp hb ht hh
  have hlen : (List.insertionSort (· ≤ ·)
      (selectedBlockIdxs S blockSize (rp b t h) t)).length = selectedCount S blockSize t := by
    rw [List.length_insertionSort, selectedBlockIdxs_length _ _ _ _ (hrp b t h)]
  have hsplit := entrySlots_eq T S blockSize t (rp b t h) (hrp b t h) ht hbs
  refine ⟨?_, ?_, ?_, ?_, ?_, ?_⟩
  · intro x hx
    have := selectedBlockIdxs_mem_lt S blockSize (rp b t h) t (hrp b t h) hx
    unfold numAvailableBlocks at this
    omega
  · rw [hcnt]
    unfold selectedCount numAvailableBlocks
    simp only [Nat.not_succ_le_zero, if_false]
    by_cases h1 : t / blockSize + 1 = 1
    · simp [h1, hS]
    · simp [h1]
  · intro h1
    have h1eq : t / blockSize + 1 = 1 := h1
    constructor
    · unfold selectedBlockIdxs
      unfold numAvailableBlocks
      simp [h1eq]
    · rw [hcnt]
      unfold selectedCount numAvailableBlocks
      simp [h1eq]
  · rw [hidx, hcnt, hsplit, List.take_append_of_le_length (le_of_eq hlen.symm),
      List.take_of_length_le (le_of_eq hlen)]
    exact List.sorted_insertionSort _ _
  · rw [hidx, hcnt, hsplit, List.take_append_of_le_length (le_of_eq hlen.symm),
      List.take_of_length_le (le_of_eq hlen)]
    exact List.perm_insertionSort _ _
  · rw [hidx, hcnt, hsplit, List.drop_append_of_le_length (le_of_eq hlen.symm),
      List.drop_of_length_le (le_of_eq hlen), List.nil_append]

/-- Witness for C4 at a concrete instance. -/
theorem sparse_selection_invariants_witness :
    (∀ x ∈ selectedBlockIdxs 2 1 ((fun _ _ _ n => List.range n) 0 1 0) 1, x ≤ 1 / 1) ∧
    genCntEntry 1 2 1 2 1 (fun _ _ _ n => List.range n) 0 1 0 ≤ min 2 (1 / 1 + 1) ∧
    (numAvailableBlocks 1 1 = 1 →
      selectedBlockIdxs 2 1 ((fun _ _ _ n => List.range n) 0 1 0) 1 = [0] ∧
      genCntEntry 1 2 1 2 1 (fun _ _ _ n => List.range n) 0 1 0 = 1) ∧
    List.Sorted (· ≤ ·)
      (List.take (genCntEntry 1 2 1 2 1 (fun _ _ _ n => List.range n) 0 1 0)
        (genIdxEntry 1 2 1 2 1 (fun _ _ _ n => List.range n) 0 1 0)) ∧
    List.Perm
      (List.take (genCntEntry 1 2 1 2 1 (fun _ _ _ n => List.range n) 0 1 0)
        (genIdxEntry 1 2 1 2 1 (fun _ _ _ n => List.range n) 0 1 0))
      (selectedBlockIdxs 2 1 ((fun _ _ _ n => List.range n) 0 1 0) 1) ∧
    List.drop (genCntEntry 1 2 1 2 1 (fun _ _ _ n => List.range n) 0 1 0)
        (genIdxEntry 1 2 1 2 1 (fun _ _ _ n => List.range n) 0 1 0) =
      List.replicate (2 - genCntEntry 1 2 1 2 1 (fun _ _ _ n => List.range n) 0 1 0)
        (sentinelIdx 2 1) :=
  sparse_selection_invariants 1 2 1 2 1 (fun _ _ _ n => List.range n)
    (fun _ _ _ _ => List.Perm.refl _) (by decide) (by decide)
    0 1 0 (by decide) (by decide) (by decide)

lemma getD_replicate_lt (m c i : ℕ) (h : i < m) :
    (List.replicate m c).getD i 0 = c := by
  rw [List.getD_eq_getElem _ _ (by simpa using h)]
  simp

/-- C3 counterexample. With T = 2, S = 2, block_size = 1 (one concrete sample
path of the generator), position 0 has a recorded count of 1, and its padding
slot holds the sequence-level sentinel 2 — not `position / block_size + 1 = 1`,
the value the claim mandates for that position. -/
theorem sparse_sentinel_per_position_cex :
    genCntEntry 1 2 1 2 1 (fun _ _ _ n => List.range n) 0 0 0 = 1 ∧
    (genIdxEntry 1 2 1 2 1 (fun _ _ _ n => List.range n) 0 0 0).getD 1 0 = 2 ∧
    (genIdxEntry 1 2 1 2 1 (fun _ _ _ n => List.range n) 0 0 0).getD 1 0 ≠ 0 / 1 + 1 := by
  decide

/-- C3 (amended). For every batch element, position and key/value head, every
padding slot (slot index at or after the recorded count) holds the sentinel
`(T - 1) / blockSize + 1`: one past the highest block index attendable anywhere
in the sequence (a single sequence-level sentinel, not the per-position value
`t / blockSize + 1`), hence strictly above every block index valid for any
position. -/
theorem sparse_sentinel_padding
    (B T H S blockSize : ℕ) (rp : ℕ → ℕ → ℕ → ℕ → List ℕ)
    (hrp : ValidRandperm rp) (hS : 1 ≤ S) (hbs : 1 ≤ blockSize)
    (b t h i : ℕ) (hb : b < B) (ht : t < T) (hh : h < H) (hiS : i < S)
    (hi : genCntEntry B T H S blockSize rp b t h ≤ i) :
    (genIdxEntry B T H S blockSize rp b t h).getD i 0 = sentinelIdx T blockSize ∧
    t / blockSize < sentinelIdx T blockSize := by
  have hidx := genIdxEntry_eq B T H S blockSize rp hb ht hh
  have hcnt := genCntEntry_eq B T H S blockSize rp hb ht hh
  have hsplit := entrySlots_eq T S blockSize t (rp b t h) (hrp b t h) ht hbs
  have hlen : (List.insertionSort (· ≤ ·)
      (selectedBlockIdxs S blockSize (rp b t h) t)).length = selectedCount S blockSize t := by
    rw [List.length_insertionSort, selectedBlockIdxs_length _ _ _ _ (hrp b t h)]
  rw [hcnt] at hi
  constructor
  · rw [hidx, hsplit, List.getD_append_right _ _ _ _ (le_trans (le_of_eq hlen) hi), hlen]
    refine getD_replicate_lt _ _ _ ?_
    have hcle : selectedCount S blockSize t ≤ S := by
      unfold selectedCount numAvailableBlocks
      show (if t / blockSize + 1 ≤ 0 then 0
        else if t / blockSize + 1 = 1 then 1 else min S (t / blockSize + 1)) ≤ S
      rw [if_neg (Nat.not_succ_le_zero _)]
      by_cases h1 : t / blockSize + 1 = 1
      · rw [if_pos h1]
        exact hS
      · rw [if_neg h1]
        exact min_le_left _ _
    omega
  · unfold sentinelIdx
    have : t ≤ T - 1 := by omega
    exact Nat.lt_succ_of_le (Nat.div_le_div_right this)

/-- Witness for C3 (amended) at a concrete instance: the padding slot of
position 1 with T = 2, S = 3, block_size = 1. -/
theorem sparse_sentinel_padding_witness :
    (genIdxEntry 1 2 1 3 1 (fun _ _ _ n => List.range n) 0 1 0).getD 2 0 =
      sentinelIdx 2 1 ∧
    1 / 1 < sentinelIdx 2 1 :=
  sparse_sentinel_padding 1 2 1 3 1 (fun _ _ _ n => List.range n)
    (fun _ _ _ _ => List.Perm.refl _) (by decide) (by decide)
    0 1 0 2 (by decide) (by decide) (by decide) (by decide) (by decide)

/-- C10. The number of available blocks for position `t` is `t / blockSize + 1`,
which is at least 1, so the empty-selection branch of the generation loop is
unreachable and every `(b, t, h)` entry records a count of at least 1. -/
theorem sparse_count_at_least_one
    (B T H S blockSize : ℕ) (rp : ℕ → ℕ → ℕ → ℕ → List ℕ)
    (hS : 1 ≤ S) (hbs : 1 ≤ blockSize)
    (b t h : ℕ) (hb : b < B) (ht : t < T) (hh : h < H) :
    numAvailableBlocks blockSize t = t / blockSize + 1 ∧
    1 ≤ numAvailableBlocks blockSize t ∧
    ¬ numAvailableBlocks blockSize t ≤ 0 ∧
    1 ≤ genCntEntry B T H S blockSize rp b t h := by
  refine ⟨rfl, Nat.succ_le_succ (Nat.zero_le _), Nat.not_succ_le_zero _, ?_⟩
  rw [genCntEntry_eq B T H S blockSize rp hb ht hh]
  unfold selectedCount numAvailableBlocks
  rw [if_neg (Nat.not_succ_le_zero _)]
  by_cases h1 : t / blockSize + 1 = 1
  · rw [if_pos h1]
  · rw [if_neg h1]
    exact le_min hS (Nat.succ_le_succ (Nat.zero_le _))

/-- Witness for C10 at a concrete instance. -/
theorem sparse_count_at_least_one_witness :
    numAvailableBlocks 2 3 = 3 / 2 + 1 ∧
    1 ≤ numAvailableBlocks 2 3 ∧
    ¬ numAvailableBlocks 2 3 ≤ 0 ∧
    1 ≤ genCntEntry 1 4 1 2 2 (fun _ _ _ n => List.range n) 0 3 0 :=
  sparse_count_at_least_one 1 4 1 2 2 (fun _ _ _ n => List.range n)
    (by decide) (by decide) 0 3 0 (by decide) (by decide) (by decide)

/-! ## Tensors and float primitives -/

/-- The transcendental float primitives the model calls out to (`torch.exp`,
`math.sqrt`, `F.gelu`, ...). They are abstract here: every verified property
holds for an arbitrary interpretation, in particular for the real ones. -/
structure RealOps where
  exp : ℚ → ℚ
  log : ℚ → ℚ
  cos : ℚ → ℚ
  sin : ℚ → ℚ
  rsqrt : ℚ → ℚ
  gelu : ℚ → ℚ

/-- A trivial interpretation of the float primitives, used to instantiate
witnesses. -/
def trivialOps : RealOps :=
  { exp := fun q => q, log := fun q => q, cos := fun q => q, sin := fun q => q,
    rsqrt := fun q => q, gelu := fun q => q }

/-- A vector (the last tensor dimension) as a list of rationals. -/
abbrev Vec := List ℚ

/-- A matrix as a list of row vectors. -/
abbrev Mat := List Vec

def dot (a b : Vec) : ℚ := (List.zipWith (· * ·) a b).sum

def addVec (a b : Vec) : Vec := List.zipWith (· + ·) a b

def mulVec (a b : Vec) : Vec := List.zipWith (· * ·) a b

def smulVec (c : ℚ) (v : Vec) : Vec := v.map (fun x => c * x)

/-- Semantics of `nn.Linear` with weight `W : (out, in)` and optional bias:
`y = W x + b`. -/
def linear (W : Mat) (b : Option Vec) (x : Vec) : Vec :=
  match b with
  | some bv => addVec (W.map (fun r => dot r x)) bv
  | none => W.map (fun r => dot r x)

/-! ## CausalSelfAttention.forward, non-sparse paths (model.py lines 179-234)

The embedding works per batch element (every operation in the forward pass
treats batch elements independently): `x : List Vec` is the `(T, C)` slice
of the input. The head dimension of `q`/`k`/`v` is represented as an index
function `ℕ → List Vec` (head ↦ its `(T, hs)` slice), mirroring the
`view`/`transpose` reshapes. Dropout layers are modelled by explicit function
parameters (`nn.Dropout` in eval mode, or with p = 0, is the identity). -/

/-- The configuration fields `CausalSelfAttention.forward` reads. `invFreq` is
the rotary inverse-frequency buffer registered at construction (line 126-127). -/
structure AttnFwdConfig where
  nEmbd : ℕ
  nHead : ℕ
  useMqa : Bool
  useRope : Bool
  useFlashAttn : Bool
  invFreq : List ℚ

/-- The parameters of the non-sparse attention paths: the QKV projection
`c_attn` and the output projection `c_proj`. -/
structure AttnWeights where
  cAttnW : Mat
  cAttnB : Option Vec
  cProjW : Mat
  cProjB : Option Vec

/-- Slice of one position's vector belonging to head `h` (the
`view(B, T, nh, hs).transpose(1, 2)` reshape, model.py lines 197, 203-205). -/
def headSlice (hs h : ℕ) (v : Vec) : Vec := (v.drop (h * hs)).take hs

/-- QKV projection and head split (model.py lines 191-205), as functions from
head index to the `(T, hs)` head slice. On the MQA branch the code slices a
single key head `qkv[:, :, n_embd : n_embd + head_dim]` and a single value
head `qkv[:, :, -head_dim:]` and expands each across all query heads
(lines 194-200): the expansion is the constant head function. -/
def qkvProject (cfg : AttnFwdConfig) (w : AttnWeights) (x : List Vec) :
    (ℕ → List Vec) × (ℕ → List Vec) × (ℕ → List Vec) :=
  let qkv := x.map (linear w.cAttnW w.cAttnB)
  let hs := cfg.nEmbd / cfg.nHead
  if cfg.useMqa then
    (fun h => qkv.map (fun row => headSlice hs h (row.take cfg.nEmbd)),
     fun _ => qkv.map (fun row => (row.drop cfg.nEmbd).take hs),
     fun _ => qkv.map (fun row => row.drop (row.length - hs)))
  else
    (fun h => qkv.map (fun row => headSlice hs h (row.take cfg.nEmbd)),
     fun h => qkv.map (fun row => headSlice hs h ((row.drop cfg.nEmbd).take cfg.nEmbd)),
     fun h => qkv.map (fun row => headSlice hs h ((row.drop (2 * cfg.nEmbd)).take cfg.nEmbd)))

/-- Rotation of the two halves of a head vector (model.py lines 48-52). -/
def rotateHalf (v : Vec) : Vec :=
  (v.drop (v.length / 2)).map (fun x => -x) ++ v.take (v.length / 2)

/-- Cosine/sine tables of `_get_rotary_embeddings` (model.py lines 142-146). -/
def ropeCosSin (ops : RealOps) (invFreq : List ℚ) (T : ℕ) : Mat × Mat :=
  let emb := (List.range T).map fun t =>
    invFreq.map (fun f => (t : ℚ) * f) ++ invFreq.map (fun f => (t : ℚ) * f)
  (emb.map (fun r => r.map ops.cos), emb.map (fun r => r.map ops.sin))

/-- Application of the rotary embedding to one head sequence
(model.py lines 54-61): `x * cos + rotate_half(x) * sin` per position. -/
def applyRotaryPosEmb (cosT sinT : Mat) (q : List Vec) : List Vec :=
  List.zipWith (fun p st => addVec (mulVec p.1 p.2) (mulVec (rotateHalf p.1) st))
    (q.zip cosT) sinT

/-- Softmax of one score row after the causal `masked_fill` (model.py
lines 223-224): positions `j > i` were set to −∞ before `F.softmax`, so they
contribute `exp(−∞) = 0` to numerator and denominator. -/
def maskedSoftmaxRow (ops : RealOps) (i : ℕ) (row : List ℚ) : List ℚ :=
  let nums := row.enum.map (fun p => if p.1 ≤ i then ops.exp p.2 else 0)
  nums.map (fun e => e / nums.sum)

/-- Row `i` of the attention weights computed by the fused
`scaled_dot_product_attention` primitive with `is_causal=True` (model.py
lines 215-220). Modelled from the primitive's documented mathematics (and
spec section 4.2): a softmax over the causally visible prefix `j ≤ i`. -/
def sdpaSoftmaxRow (ops : RealOps) (i : ℕ) (row : List ℚ) : List ℚ :=
  row.enum.map (fun p =>
    if p.1 ≤ i then ops.exp p.2 / ((row.take (i + 1)).map ops.exp).sum else 0)

/-- Weighted combination `att @ v` for one output row: `Σ_j w_j · v_j`,
of head dimension `hs`. -/
def weightedSum (hs : ℕ) (ws : List ℚ) (vs : List Vec) : Vec :=
  (List.zipWith smulVec ws vs).foldr addVec (List.replicate hs (0 : ℚ))

/-- Scaled score matrix `(q @ k^T) * (1 / sqrt(hs))` (model.py line 222; the
fused path uses the same default scale). -/
def attScores (ops : RealOps) (q k : List Vec) : List (List ℚ) :=
  q.map (fun qi => k.map (fun kj => dot qi kj * ops.rsqrt ((k.headD []).length : ℚ)))

/-- One head of the standard dense path (model.py lines 221-226): scaled
scores, causal mask, softmax, attention dropout, multiply by `v`. -/
def standardAttnHead (ops : RealOps) (dropAttn : List (List ℚ) → List (List ℚ))
    (hs : ℕ) (q k v : List Vec) : List Vec :=
  let att := (attScores ops q k).enum.map (fun p => maskedSoftmaxRow ops p.1 p.2)
  (dropAttn att).map (fun row => weightedSum hs row v)

/-- One head of the fused path (model.py lines 213-220), with `dropout_p = 0`
(inference, or dropout disabled). -/
def sdpaAttnHead (ops : RealOps) (hs : ℕ) (q k v : List Vec) : List Vec :=
  let att := (attScores ops q k).enum.map (fun p => sdpaSoftmaxRow ops p.1 p.2)
  att.map (fun row => weightedSum hs row v)

/-- Shallow embedding of the non-sparse branch of
`CausalSelfAttention.forward` (model.py lines 188-234): QKV projection and
head split, optional rotary application, flash-or-standard attention, head
re-assembly, output projection, residual dropout. -/
def causalSelfAttentionForward (ops : RealOps) (cfg : AttnFwdConfig)
    (w : AttnWeights) (dropAttn : List (List ℚ) → List (List ℚ))
    (residDrop : List Vec → List Vec) (x : List Vec) : List Vec :=
  let T := x.length
  let hs := cfg.nEmbd / cfg.nHead
  let qkv := qkvProject cfg w x
  let cs := ropeCosSin ops cfg.invFreq T
  let qf := if cfg.useRope then fun h => applyRotaryPosEmb cs.1 cs.2 (qkv.1 h) else qkv.1
  let kf := if cfg.useRope then fun h => applyRotaryPosEmb cs.1 cs.2 (qkv.2.1 h) else qkv.2.1
  let vf := qkv.2.2
  let headOut : ℕ → List Vec := fun h =>
    if cfg.useFlashAttn then sdpaAttnHead ops hs (qf h) (kf h) (vf h)
    else standardAttnHead ops dropAttn hs (qf h) (kf h) (vf h)
  let yConcat := (List.range T).map fun t =>
    ((List.range cfg.nHead).map fun h => (headOut h).getD t []).flatten
  residDrop (yConcat.map (linear w.cProjW w.cProjB))

lemma sum_enumFrom_ite (f : ℚ → ℚ) :
    ∀ (l : List ℚ) (n i : ℕ),
      ((l.enumFrom n).map (fun p => if p.1 ≤ i then f p.2 else 0)).sum =
        ((l.take (i + 1 - n)).map f).sum := by
  intro l
  induction l with
  | nil => intro n i; simp
  | cons a l ih =>
    intro n i
    rw [List.enumFrom_cons]
    by_cases h : n ≤ i
    · have h2 : i + 1 - n = (i - n) + 1 := by omega
      simp only [List.map_cons, List.sum_cons, if_pos h]
      rw [ih (n + 1) i, h2, List.take_succ_cons, List.map_cons, List.sum_cons]
      have h3 : i + 1 - (n + 1) = i - n := by omega
      rw [h3]
    · have h2 : i + 1 - n = 0 := by omega
      simp only [List.map_cons, List.sum_cons, if_neg h]
      rw [ih (n + 1) i, h2]
      have h3 : i + 1 - (n + 1) = 0 := by omega
      rw [h3]
      simp

/-- Key step for C5: masking with −∞ and then normalizing over the whole row
equals normalizing over the causally visible prefix. -/
lemma sdpaSoftmaxRow_eq_masked (ops : RealOps) (i : ℕ) (row : List ℚ) :
    sdpaSoftmaxRow ops i row = maskedSoftmaxRow ops i row := by
  unfold sdpaSoftmaxRow maskedSoftmaxRow
  have hden : ((row.enum.map (fun p => if p.1 ≤ i then ops.exp p.2 else 0)).sum)
      = ((row.take (i + 1)).map ops.exp).sum := by
    have h := sum_enumFrom_ite ops.exp row 0 i
    simpa using h
  rw [List.map_map]
  refine (List.map_congr_left ?_)
  intro p _
  simp only [Function.comp]
  rw [hden]
  by_cases h : p.1 ≤ i
  · rw [if_pos h, if_pos h]
  · rw [if_neg h, if_neg h, zero_div]

lemma sdpaAttnHead_eq_standard (ops : RealOps) (hs : ℕ) (q k v : List Vec) :
    sdpaAttnHead ops hs q k v = standardAttnHead ops id hs q k v := by
  unfold sdpaAttnHead standardAttnHead
  simp only [id, sdpaSoftmaxRow_eq_masked]

lemma qkvProject_set_flash (cfg : AttnFwdConfig) (b : Bool) (w : AttnWeights)
    (x : List Vec) :
    qkvProject { cfg with useFlashAttn := b } w x = qkvProject cfg w x := rfl

/-- C5. With identical inputs, identical projection weights and dropout
disabled, the dense masked-softmax path and the fused
scaled-dot-product-attention path of `CausalSelfAttention.forward` produce
equal context outputs (exact equality in the rational/real model, for every
interpretation of the float primitives). -/
theorem dense_fused_equivalent (ops : RealOps) (cfg : AttnFwdConfig)
    (w : AttnWeights) (dropAttn : List (List ℚ) → List (List ℚ))
    (residDrop : List Vec → List Vec) (x : List Vec)
    (hdrop : dropAttn = id) :
    causalSelfAttentionForward ops { cfg with useFlashAttn := true } w
        dropAttn residDrop x =
      causalSelfAttentionForward ops { cfg with useFlashAttn := false } w
        dropAttn residDrop x := by
  subst hdrop
  unfold causalSelfAttentionForward
  simp only [sdpaAttnHead_eq_standard, qkvProject_set_flash, if_pos, if_neg,
    Bool.false_eq_true, if_true, if_false]

/-- Witness for C5 at a concrete instance (two positions, two heads,
trivial primitive interpretation). -/
theorem dense_fused_equivalent_witness :
    causalSelfAttentionForward trivialOps
        { nEmbd := 2, nHead := 2, useMqa := false, useRope := false,
          useFlashAttn := true, invFreq := [] }
        { cAttnW := List.replicate 6 [1, 1], cAttnB := none,
          cProjW := [[1, 0], [0, 1]], cProjB := none }
        id id [[1, 2], [3, 4]] =
      causalSelfAttentionForward trivialOps
        { nEmbd := 2, nHead := 2, useMqa := false, useRope := false,
          useFlashAttn := false, invFreq := [] }
        { cAttnW := List.replicate 6 [1, 1], cAttnB := none,
          cProjW := [[1, 0], [0, 1]], cProjB := none }
        id id [[1, 2], [3, 4]] :=
  dense_fused_equivalent trivialOps
    { nEmbd := 2, nHead := 2, useMqa := false, useRope := false,
      useFlashAttn := false, invFreq := [] }
    { cAttnW := List.replicate 6 [1, 1], cAttnB := none,
      cProjW := [[1, 0], [0, 1]], cProjB := none }
    id id [[1, 2], [3, 4]] rfl

/-! ## C2: grouped-query attention and the unused key/value head projections

On the MQA/GQA branch, `__init__` sizes `c_attn` as
`n_embd + 2 * mqa_kv_n_head * head_dim` (line 112), i.e. it allocates
`mqa_kv_n_head` key heads and as many value heads; but `forward` slices only
`qkv[:, :, n_embd : n_embd + head_dim]` (the first key head) and
`qkv[:, :, -head_dim:]` (the last value head), lines 194-195, and expands
those single heads across all query heads. The lemmas below show the output
is invariant under arbitrary changes of the other key/value head rows of the
projection. -/

lemma linear_take_eq (W W2 : Mat) (b : Option Vec) (x : Vec) (n : ℕ)
    (h : W.take n = W2.take n) :
    (linear W b x).take n = (linear W2 b x).take n := by
  cases b with
  | none =>
    unfold linear
    rw [← List.map_take, ← List.map_take, h]
  | some bv =>
    unfold linear addVec
    rw [List.take_zipWith, List.take_zipWith, ← List.map_take, ← List.map_take, h]

lemma linear_drop_take_eq (W W2 : Mat) (b : Option Vec) (x : Vec) (n m : ℕ)
    (h : (W.drop n).take m = (W2.drop n).take m) :
    ((linear W b x).drop n).take m = ((linear W2 b x).drop n).take m := by
  cases b with
  | none =>
    unfold linear
    rw [← List.map_drop, ← List.map_drop, ← List.map_take, ← List.map_take, h]
  | some bv =>
    unfold linear addVec
    rw [List.drop_zipWith, List.take_zipWith, List.drop_zipWith, List.take_zipWith,
      ← List.map_drop, ← List.map_drop, ← List.map_take, ← List.map_take, h]

lemma linear_length_of_bias (W : Mat) (b : Option Vec) (x : Vec)
    (hb : ∀ bv, b = some bv → bv.length = W.length) :
    (linear W b x).length = W.length := by
  cases b with
  | none =>
    unfold linear
    rw [List.length_map]
  | some bv =>
    unfold linear addVec
    rw [List.length_zipWith, List.length_map, hb bv rfl, min_self]

lemma linear_suffix_eq (W W2 : Mat) (b : Option Vec) (x : Vec) (hs : ℕ)
    (hlen : W.length = W2.length)
    (hb : ∀ bv, b = some bv → bv.length = W.length)
    (h : W.drop (W.length - hs) = W2.drop (W2.length - hs)) :
    (linear W b x).drop ((linear W b x).length - hs) =
      (linear W2 b x).drop ((linear W2 b x).length - hs) := by
  have hb2 : ∀ bv, b = some bv → bv.length = W2.length := by
    intro bv hbv
    rw [hb bv hbv, hlen]
  rw [linear_length_of_bias W b x hb, linear_length_of_bias W2 b x hb2]
  cases b with
  | none =>
    unfold linear
    rw [← List.map_drop, ← List.map_drop, h]
  | some bv =>
    unfold linear addVec
    rw [List.drop_zipWith, List.drop_zipWith, ← List.map_drop, ← List.map_drop, h, hlen]

/-- On the MQA/GQA branch, the projected q/k/v head slices depend only on the
query rows, the first key-head rows, and the last value-head rows of `c_attn`. -/
lemma qkvProject_mqa_eq (cfg : AttnFwdConfig) (w w2 : AttnWeights) (x : List Vec)
    (hmqa : cfg.useMqa = true)
    (hWq : w.cAttnW.take cfg.nEmbd = w2.cAttnW.take cfg.nEmbd)
    (hWk : (w.cAttnW.drop cfg.nEmbd).take (cfg.nEmbd / cfg.nHead) =
      (w2.cAttnW.drop cfg.nEmbd).take (cfg.nEmbd / cfg.nHead))
    (hWv : w.cAttnW.drop (w.cAttnW.length - cfg.nEmbd / cfg.nHead) =
      w2.cAttnW.drop (w2.cAttnW.length - cfg.nEmbd / cfg.nHead))
    (hlen : w.cAttnW.length = w2.cAttnW.length)
    (hbias : w.cAttnB = w2.cAttnB)
    (hblen : ∀ bv, w.cAttnB = some bv → bv.length = w.cAttnW.length) :
    qkvProject cfg w x = qkvProject cfg w2 x := by
  unfold qkvProject
  simp only [hmqa, if_true]
  rw [← hbias]
  refine Prod.ext ?_ (Prod.ext ?_ ?_)
  · funext h
    dsimp only
    rw [List.map_map, List.map_map]
    refine List.map_congr_left ?_
    intro xr _
    simp only [Function.comp]
    rw [linear_take_eq w.cAttnW w2.cAttnW w.cAttnB xr cfg.nEmbd hWq]
  · funext h
    dsimp only
    rw [List.map_map, List.map_map]
    refine List.map_congr_left ?_
    intro xr _
    simp only [Function.comp]
    rw [linear_drop_take_eq w.cAttnW w2.cAttnW w.cAttnB xr cfg.nEmbd
      (cfg.nEmbd / cfg.nHead) hWk]
  · funext h
    dsimp only
    rw [List.map_map, List.map_map]
    refine List.map_congr_left ?_
    intro xr _
    simp only [Function.comp]
    rw [linear_suffix_eq w.cAttnW w2.cAttnW w.cAttnB xr (cfg.nEmbd / cfg.nHead)
      hlen hblen hWv]

/-- C2 (code bug). Part 1: on the grouped-query branch the QKV projection is
sized `n_embd + 2 * g * head_dim` as the claim states. Part 2: the forward
output is invariant under arbitrary changes to every key/value head row of the
projection other than the first key head and the last value head — so for
`g > 1` the remaining `g - 1` key-head and `g - 1` value-head projections do
NOT participate in the result, contradicting the claim's broadcast semantics. -/
theorem mqa_extra_kv_head_projections_unused
    (nsaAvailable : Bool) (ac : AttnConfig) (ops : RealOps) (cfg : AttnFwdConfig)
    (w w2 : AttnWeights) (dropAttn : List (List ℚ) → List (List ℚ))
    (residDrop : List Vec → List Vec) (x : List Vec)
    (hacMqa : ac.useMqa = true) (hacSparse : ac.useSparseAttn = false)
    (hacDiv : ac.nEmbd % ac.nHead = 0) (hacKv : ac.nHead % ac.mqaKvNHead = 0)
    (hmqa : cfg.useMqa = true)
    (hWq : w.cAttnW.take cfg.nEmbd = w2.cAttnW.take cfg.nEmbd)
    (hWk : (w.cAttnW.drop cfg.nEmbd).take (cfg.nEmbd / cfg.nHead) =
      (w2.cAttnW.drop cfg.nEmbd).take (cfg.nEmbd / cfg.nHead))
    (hWv : w.cAttnW.drop (w.cAttnW.length - cfg.nEmbd / cfg.nHead) =
      w2.cAttnW.drop (w2.cAttnW.length - cfg.nEmbd / cfg.nHead))
    (hlen : w.cAttnW.length = w2.cAttnW.length)
    (hbias : w.cAttnB = w2.cAttnB)
    (hblen : ∀ bv, w.cAttnB = some bv → bv.length = w.cAttnW.length)
    (hprojW : w.cProjW = w2.cProjW) (hprojB : w.cProjB = w2.cProjB) :
    (∃ s, causalSelfAttentionInit nsaAvailable ac = .ok s ∧
      s.cAttnOutFeatures = ac.nEmbd + 2 * ac.mqaKvNHead * (ac.nEmbd / ac.nHead)) ∧
    causalSelfAttentionForward ops cfg w dropAttn residDrop x =
      causalSelfAttentionForward ops cfg w2 dropAttn residDrop x := by
  constructor
  · unfold causalSelfAttentionInit
    rw [if_neg (by simp [hacDiv]), if_neg (by simp [hacSparse]), if_pos hacMqa,
      if_neg (by simp [hacKv])]
    exact ⟨_, rfl, rfl⟩
  · have hqkv := qkvProject_mqa_eq cfg w w2 x hmqa hWq hWk hWv hlen hbias hblen
    unfold causalSelfAttentionForward
    rw [hqkv, hprojW, hprojB]

/-- Witness for C2 at the failing input: `n_embd = 2`, `n_head = 2`,
`mqa_kv_n_head = 2` (so two key heads and two value heads are allocated), two
projections differing exactly in the second key head row and the first value
head row, same input — equal outputs. -/
theorem mqa_extra_kv_head_projections_unused_witness :
    (∃ s, causalSelfAttentionInit false
        { nEmbd := 2, nHead := 2, useFlashAttnFlag := false, sdpaAvailable := false,
          useSparseAttn := false, useMqa := true, mqaKvNHead := 2 } = .ok s ∧
      s.cAttnOutFeatures = 2 + 2 * 2 * (2 / 2)) ∧
    causalSelfAttentionForward trivialOps
        { nEmbd := 2, nHead := 2, useMqa := true, useRope := false,
          useFlashAttn := false, invFreq := [] }
        { cAttnW := [[1, 0], [0, 1], [1, 1], [2, 3], [4, 5], [1, 2]],
          cAttnB := none, cProjW := [[1, 0], [0, 1]], cProjB := none }
        id id [[1, 2]] =
      causalSelfAttentionForward trivialOps
        { nEmbd := 2, nHead := 2, useMqa := true, useRope := false,
          useFlashAttn := false, invFreq := [] }
        { cAttnW := [[1, 0], [0, 1], [1, 1], [9, 9], [7, 7], [1, 2]],
          cAttnB := none, cProjW := [[1, 0], [0, 1]], cProjB := none }
        id id [[1, 2]] :=
  mqa_extra_kv_head_projections_unused false
    { nEmbd := 2, nHead := 2, useFlashAttnFlag := false, sdpaAvailable := false,
      useSparseAttn := false, useMqa := true, mqaKvNHead := 2 }
    trivialOps
    { nEmbd := 2, nHead := 2, useMqa := true, useRope := false,
      useFlashAttn := false, invFreq := [] }
    { cAttnW := [[1, 0], [0, 1], [1, 1], [2, 3], [4, 5], [1, 2]],
      cAttnB := none, cProjW := [[1, 0], [0, 1]], cProjB := none }
    { cAttnW := [[1, 0], [0, 1], [1, 1], [9, 9], [7, 7], [1, 2]],
      cAttnB := none, cProjW := [[1, 0], [0, 1]], cProjB := none }
    id id [[1, 2]]
    rfl rfl (by decide) (by decide) rfl (by decide) (by decide) (by decide)
    (by decide) rfl (fun bv h => Option.noConfusion h) rfl rfl

/-! ## C9: weight tying (GPT.__init__, model.py lines 294-319)

Python assigns `self.transformer.wte.weight = self.lm_head.weight` (line 312):
after construction both attribute paths hold one reference to one tensor
object. Aliasing is modelled with an explicit heap of tensor storages and a
record of references. The parameter-mutating operations of the class —
in-place tensor writes (`normal_`, `zeros_` in `_init_weights`, `copy_` in
`from_pretrained`) and the `wpe` re-assignment in `crop_block_size`
(line 384) — are modelled as heap operations. -/

/-- A heap of tensor storages addressed by reference id, plus an allocation
counter. -/
structure ParamHeap where
  store : ℕ → List ℚ
  next : ℕ

/-- Allocation of a fresh tensor (what `nn.Embedding` / `nn.Linear` /
`nn.Parameter` construction does). -/
def alloc (h : ParamHeap) (v : List ℚ) : ℕ × ParamHeap :=
  (h.next,
   { store := fun r => if r = h.next then v else h.store r, next := h.next + 1 })

/-- In-place overwrite of the tensor behind a reference (`normal_`, `zeros_`,
`copy_`). -/
def writeRef (h : ParamHeap) (r : ℕ) (v : List ℚ) : ParamHeap :=
  { h with store := fun x => if x = r then v else h.store x }

/-- Read of the tensor behind a reference. -/
def readRef (h : ParamHeap) (r : ℕ) : List ℚ := h.store r

/-- The tensor references the weight-tying claim observes. -/
structure GPTRefs where
  wteRef : ℕ
  wpeRef : ℕ
  lmHeadRef : ℕ

/-- Reference-level embedding of `GPT.__init__`: allocate `wte.weight`
(line 301), `wpe.weight` (line 302) and `lm_head.weight` (line 307), then
re-point `wte.weight` at `lm_head.weight` (line 312, weight tying). -/
def mkGPTRefs (h0 : ParamHeap) (wteInit wpeInit lmInit : List ℚ) :
    GPTRefs × ParamHeap :=
  let a1 := alloc h0 wteInit
  let a2 := alloc a1.2 wpeInit
  let a3 := alloc a2.2 lmInit
  let g0 : GPTRefs := { wteRef := a1.1, wpeRef := a2.1, lmHeadRef := a3.1 }
  ({ g0 with wteRef := g0.lmHeadRef }, a3.2)

/-- The parameter-mutating operations of `GPT`: an in-place tensor write
(covers `_init_weights`, the scaled re-init of `c_proj.weight`, and every
`copy_` of the checkpoint import) and the `crop_block_size` re-assignment of
`wpe.weight` to a freshly allocated parameter. `configure_optimizers` only
reads parameters and is covered by the absence of an operation. -/
inductive ParamOp where
  | writeTensor (r : ℕ) (v : List ℚ)
  | cropWpe (v : List ℚ)

def applyOp (g : GPTRefs) (h : ParamHeap) : ParamOp → GPTRefs × ParamHeap
  | .writeTensor r v => (g, writeRef h r v)
  | .cropWpe v =>
    let a := alloc h v
    ({ g with wpeRef := a.1 }, a.2)

def applyOps (g : GPTRefs) (h : ParamHeap) : List ParamOp → GPTRefs × ParamHeap
  | [] => (g, h)
  | op :: rest =>
    let gh := applyOp g h op
    applyOps gh.1 gh.2 rest

lemma applyOps_preserves_tie (ops : List ParamOp) :
    ∀ (g : GPTRefs) (h : ParamHeap), g.wteRef = g.lmHeadRef →
      (applyOps g h ops).1.wteRef = (applyOps g h ops).1.lmHeadRef := by
  induction ops with
  | nil => intro g h hg; exact hg
  | cons op rest ih =>
    intro g h hg
    cases op with
    | writeTensor r v => exact ih g (writeRef h r v) hg
    | cropWpe v => exact ih _ _ hg

/-- C9. After construction the token-embedding reference and the
vocabulary-projection reference are the same storage location; a mutation
through either reference is observable through the other; and every
parameter-mutating operation of the class (in-place writes of
initialization and checkpoint import, the `crop_block_size` re-allocation
of `wpe`) preserves the tie. -/
theorem weight_tying_invariant
    (h0 : ParamHeap) (wteInit wpeInit lmInit v : List ℚ)
    (gs : GPTRefs) (hH : ParamHeap) (ops : List ParamOp)
    (hg : gs.wteRef = gs.lmHeadRef) :
    (mkGPTRefs h0 wteInit wpeInit lmInit).1.wteRef =
      (mkGPTRefs h0 wteInit wpeInit lmInit).1.lmHeadRef ∧
    readRef (writeRef hH gs.wteRef v) gs.lmHeadRef = v ∧
    readRef (writeRef hH gs.lmHeadRef v) gs.wteRef = v ∧
    (applyOps gs hH ops).1.wteRef = (applyOps gs hH ops).1.lmHeadRef := by
  refine ⟨rfl, ?_, ?_, applyOps_preserves_tie ops gs hH hg⟩
  · unfold readRef writeRef
    rw [hg]
    simp
  · unfold readRef writeRef
    rw [hg]
    simp

/-- Witness for C9 at a concrete instance. -/
theorem weight_tying_invariant_witness :
    (mkGPTRefs ⟨fun _ => [], 0⟩ [1] [2] [3]).1.wteRef =
      (mkGPTRefs ⟨fun _ => [], 0⟩ [1] [2] [3]).1.lmHeadRef ∧
    readRef (writeRef ⟨fun _ => [], 3⟩ (⟨2, 1, 2⟩ : GPTRefs).wteRef [7])
      (⟨2, 1, 2⟩ : GPTRefs).lmHeadRef = [7] ∧
    readRef (writeRef ⟨fun _ => [], 3⟩ (⟨2, 1, 2⟩ : GPTRefs).lmHeadRef [7])
      (⟨2, 1, 2⟩ : GPTRefs).wteRef = [7] ∧
    (applyOps ⟨2, 1, 2⟩ ⟨fun _ => [], 3⟩ [.writeTensor 2 [9], .cropWpe [4]]).1.wteRef =
      (applyOps ⟨2, 1, 2⟩ ⟨fun _ => [], 3⟩ [.writeTensor 2 [9], .cropWpe [4]]).1.lmHeadRef :=
  weight_tying_invariant ⟨fun _ => [], 0⟩ [1] [2] [3] [7] ⟨2, 1, 2⟩ ⟨fun _ => [], 3⟩
    [.writeTensor 2 [9], .cropWpe [4]] rfl

/-! ## C8: checkpoint import (GPT.from_pretrained, model.py lines 416-444)

State dicts are association lists from parameter names to tensors; a tensor
is a shape together with flat row-major data. `copy_` becomes a functional
entry update, asserts and the `KeyError` of a missing dict key become
`Except.error`; on any error no dict is produced (observably, no partial
load). -/

/-- A tensor: shape and flat row-major data. -/
structure Tensor where
  shape : List ℕ
  data : List ℚ
  deriving DecidableEq, Repr

/-- Row-major data of the transpose of an `r × c` matrix. -/
def transpose2 (r c : ℕ) (d : List ℚ) : List ℚ :=
  ((List.range c).map (fun i => (List.range r).map (fun j => d.getD (j * c + i) 0))).flatten

/-- Semantics of `torch.Tensor.t()`: identity on tensors of dimension ≤ 1,
transposition of 2-D tensors, a `RuntimeError` above. -/
def tensorT (ten : Tensor) : Except String Tensor :=
  match ten.shape with
  | [] => .ok ten
  | [_] => .ok ten
  | [r, c] => .ok ⟨[c, r], transpose2 r c ten.data⟩
  | _ => .error "RuntimeError: t() expects a tensor with <= 2 dimensions"

/-- A `state_dict`: an insertion-ordered list of name/tensor pairs with
unique names. -/
abbrev StateDict := List (String × Tensor)

/-- Python dict read `sd[k]`, as an option. -/
def lookupT (sd : StateDict) (k : String) : Option Tensor :=
  (sd.find? (fun p => p.1 == k)).map (fun p => p.2)

/-- Effect of `sd[k].copy_(v)` at the dict level: the entry named `k` now
holds `v`. -/
def updateT (sd : StateDict) (k : String) (v : Tensor) : StateDict :=
  sd.map (fun p => if p.1 == k then (k, v) else p)

/-- The shape of the tensor at a key, if present. -/
def shapeAt (sd : StateDict) (k : String) : Option (List ℕ) :=
  (lookupT sd k).map (fun t => t.shape)

/-- The four weight classes stored transposed by the external checkpoint
(model.py line 428). -/
def transposedSuffixes : List String :=
  ["attn.c_attn.weight", "attn.c_proj.weight", "mlp.c_fc.weight", "mlp.c_proj.weight"]

def isTransposedKey (k : String) : Bool :=
  transposedSuffixes.any (fun w => k.endsWith w)

/-- The freshly-constructed model's keys after discarding the causal-mask
buffer (model.py line 418). -/
def filteredKeys (sd : StateDict) : List String :=
  (sd.map (fun p => p.1)).filter (fun k => ! k.endsWith ".attn.bias")

/-- The pretrained model's keys after discarding its mask buffers
(model.py lines 426-427). -/
def filteredKeysHf (sd : StateDict) : List String :=
  ((sd.map (fun p => p.1)).filter (fun k => ! k.endsWith ".attn.masked_bias")).filter
    (fun k => ! k.endsWith ".attn.bias")

/-- Import of one key (model.py lines 432-442): transposed-class keys assert
`sd_hf[k].shape[::-1] == sd[k].shape` and copy the transpose; all others
assert equal shapes and copy verbatim; a missing key is a `KeyError`. -/
def copyKey (sd sdHf : StateDict) (k : String) : Except String StateDict :=
  match lookupT sdHf k, lookupT sd k with
  | some thf, some tsd =>
    if isTransposedKey k then
      if thf.shape.reverse = tsd.shape then
        match tensorT thf with
        | .ok tt => .ok (updateT sd k tt)
        | .error e => .error e
      else .error "AssertionError: transposed shape mismatch"
    else
      if thf.shape = tsd.shape then .ok (updateT sd k thf)
      else .error "AssertionError: shape mismatch"
  | _, _ => .error "KeyError"

/-- The copy loop over the pretrained keys (model.py line 432). -/
def loadKeys (sdHf : StateDict) : List String → StateDict → Except String StateDict
  | [], sd => .ok sd
  | k :: rest, sd =>
    match copyKey sd sdHf k with
    | .ok sd2 => loadKeys sdHf rest sd2
    | .error e => .error e

/-- Shallow embedding of the import routine of `GPT.from_pretrained`
(model.py lines 416-444): filter the mask buffers from both key lists,
assert equal key counts (line 431), then copy key by key. -/
def fromPretrained (sd sdHf : StateDict) : Except String StateDict :=
  if (filteredKeysHf sdHf).length ≠ (filteredKeys sd).length then
    .error "AssertionError: mismatched keys"
  else loadKeys sdHf (filteredKeysHf sdHf) sd

/-- Compatibility of one key: present on both sides with the shape relation
the import asserts (and rank ≤ 2 on the transposed classes, which `t()`
requires). -/
def KeyCompatible (sd sdHf : StateDict) (k : String) : Prop :=
  ∃ shf ssd, shapeAt sdHf k = some shf ∧ shapeAt sd k = some ssd ∧
    (isTransposedKey k = true → shf.reverse = ssd ∧ shf.length ≤ 2) ∧
    (isTransposedKey k = false → shf = ssd)

/-- What the import stored at one key: the transpose of the pretrained tensor
for the four transposed classes, the pretrained tensor itself otherwise. -/
def KeyLoaded (sd2 sdHf : StateDict) (k : String) : Prop :=
  ∃ thf, lookupT sdHf k = some thf ∧
    (isTransposedKey k = true → ∃ tt, tensorT thf = .ok tt ∧ lookupT sd2 k = some tt) ∧
    (isTransposedKey k = false → lookupT sd2 k = some thf)

lemma lookupT_cons (p : String × Tensor) (rest : StateDict) (k : String) :
    lookupT (p :: rest) k = if p.1 == k then some p.2 else lookupT rest k := by
  unfold lookupT
  cases hpk : (p.1 == k) with
  | true => simp [List.find?, hpk]
  | false => simp [List.find?, hpk]

lemma updateT_cons (p : String × Tensor) (rest : StateDict) (k : String) (v : Tensor) :
    updateT (p :: rest) k v = (if p.1 == k then (k, v) else p) :: updateT rest k v := rfl

lemma lookupT_updateT_ne (sd : StateDict) (k : String) (v : Tensor) (k2 : String)
    (h : k2 ≠ k) : lookupT (updateT sd k v) k2 = lookupT sd k2 := by
  induction sd with
  | nil => rfl
  | cons p rest ih =>
    rw [updateT_cons, lookupT_cons, lookupT_cons]
    by_cases hp : p.1 = k
    · have h1 : (k == k2) = false := beq_eq_false_iff_ne.mpr (Ne.symm h)
      have h2 : (p.1 == k2) = false := beq_eq_false_iff_ne.mpr (hp ▸ Ne.symm h)
      simp only [hp, beq_self_eq_true, if_true, h1, h2, Bool.false_eq_true, if_false, ih]
    · have h3 : (p.1 == k) = false := beq_eq_false_iff_ne.mpr hp
      simp only [h3, Bool.false_eq_true, if_false]
      by_cases hq : p.1 = k2
      · simp only [hq, beq_self_eq_true, if_true]
      · have h4 : (p.1 == k2) = false := beq_eq_false_iff_ne.mpr hq
        simp only [h4, Bool.false_eq_true, if_false, ih]

lemma lookupT_updateT_self (sd : StateDict) (k : String) (v : Tensor)
    (h : (lookupT sd k).isSome) : lookupT (updateT sd k v) k = some v := by
  induction sd with
  | nil => simp [lookupT] at h
  | cons p rest ih =>
    rw [updateT_cons, lookupT_cons]
    rw [lookupT_cons] at h
    by_cases hp : p.1 = k
    · simp only [hp, beq_self_eq_true, if_true, beq_self_eq_true]
    · have h3 : (p.1 == k) = false := beq_eq_false_iff_ne.mpr hp
      simp only [h3, Bool.false_eq_true, if_false] at h ⊢
      exact ih h

lemma updateT_map_fst (sd : StateDict) (k : String) (v : Tensor) :
    (updateT sd k v).map Prod.fst = sd.map Prod.fst := by
  induction sd with
  | nil => rfl
  | cons p rest ih =>
    rw [updateT_cons, List.map_cons, List.map_cons, ih]
    by_cases hp : p.1 = k
    · simp [hp]
    · simp [beq_eq_false_iff_ne.mpr hp]

lemma tensorT_ok_facts (t tt : Tensor) (h : tensorT t = .ok tt) :
    t.shape.length ≤ 2 ∧ tt.shape = t.shape.reverse := by
  unfold tensorT at h
  split at h
  next hs =>
    cases h
    simp [hs]
  next n hs =>
    cases h
    simp [hs]
  next r c hs =>
    cases h
    simp [hs]
  next =>
    cases h

lemma copyKey_ok_spec (sd sdHf : StateDict) (k : String) (sd1 : StateDict)
    (h : copyKey sd sdHf k = .ok sd1) :
    KeyCompatible sd sdHf k ∧
    KeyLoaded sd1 sdHf k ∧
    (∀ k2, k2 ≠ k → lookupT sd1 k2 = lookupT sd k2) ∧
    (∀ k2, shapeAt sd1 k2 = shapeAt sd k2) ∧
    sd1.map Prod.fst = sd.map Prod.fst := by
  unfold copyKey at h
  cases hhf : lookupT sdHf k with
  | none => rw [hhf] at h; cases h
  | some thf =>
    cases hsd : lookupT sd k with
    | none => rw [hhf, hsd] at h; cases h
    | some tsd =>
      rw [hhf, hsd] at h
      dsimp only at h
      have hsome : (lookupT sd k).isSome := by rw [hsd]; rfl
      by_cases htr : isTransposedKey k = true
      · rw [if_pos htr] at h
        by_cases hshape : thf.shape.reverse = tsd.shape
        · rw [if_pos hshape] at h
          cases htt : tensorT thf with
          | error e => rw [htt] at h; cases h
          | ok tt =>
            rw [htt] at h
            cases h
            obtain ⟨hrank, httshape⟩ := tensorT_ok_facts thf tt htt
            have hrank2 : thf.shape.length ≤ 2 := hrank
            refine ⟨⟨thf.shape, tsd.shape, by rw [shapeAt, hhf]; rfl, by rw [shapeAt, hsd]; rfl,
                fun _ => ⟨hshape, hrank2⟩, fun hf => absurd htr (by rw [hf]; simp)⟩,
              ⟨thf, hhf, fun _ => ⟨tt, htt, lookupT_updateT_self sd k tt hsome⟩,
                fun hf => absurd htr (by rw [hf]; simp)⟩,
              fun k2 hk2 => lookupT_updateT_ne sd k tt k2 hk2, ?_,
              updateT_map_fst sd k tt⟩
            intro k2
            by_cases hk2 : k2 = k
            · subst hk2
              rw [shapeAt, shapeAt, lookupT_updateT_self sd k2 tt hsome, hsd]
              simp [httshape, hshape]
            · rw [shapeAt, shapeAt, lookupT_updateT_ne sd k tt k2 hk2]
        · rw [if_neg hshape] at h; cases h
      · rw [if_neg htr] at h
        by_cases hshape : thf.shape = tsd.shape
        · rw [if_pos hshape] at h
          cases h
          refine ⟨⟨thf.shape, tsd.shape, by rw [shapeAt, hhf]; rfl, by rw [shapeAt, hsd]; rfl,
              fun ht => absurd ht htr, fun _ => hshape⟩,
            ⟨thf, hhf, fun ht => absurd ht htr,
              fun _ => lookupT_updateT_self sd k thf hsome⟩,
            fun k2 hk2 => lookupT_updateT_ne sd k thf k2 hk2, ?_,
            updateT_map_fst sd k thf⟩
          intro k2
          by_cases hk2 : k2 = k
          · subst hk2
            rw [shapeAt, shapeAt, lookupT_updateT_self sd k2 thf hsome, hsd]
            simp [hshape]
          · rw [shapeAt, shapeAt, lookupT_updateT_ne sd k thf k2 hk2]
        · rw [if_neg hshape] at h; cases h

lemma loadKeys_ok_spec (sdHf : StateDict) :
    ∀ (keys : List String) (sd sd2 : StateDict), keys.Nodup →
      loadKeys sdHf keys sd = .ok sd2 →
      (∀ k ∈ keys, KeyCompatible sd sdHf k ∧ KeyLoaded sd2 sdHf k) ∧
      (∀ k2, k2 ∉ keys → lookupT sd2 k2 = lookupT sd k2) ∧
      sd2.map Prod.fst = sd.map Prod.fst := by
  intro keys
  induction keys with
  | nil =>
    intro sd sd2 _ h
    cases h
    exact ⟨by simp, fun k2 _ => rfl, rfl⟩
  | cons k rest ih =>
    intro sd sd2 hnd h
    unfold loadKeys at h
    cases hc : copyKey sd sdHf k with
    | error e => rw [hc] at h; cases h
    | ok sd1 =>
      rw [hc] at h
      obtain ⟨hcom, hload, hne, hshape, hfst⟩ := copyKey_ok_spec sd sdHf k sd1 hc
      obtain ⟨hknotin, hndr⟩ := List.nodup_cons.mp hnd
      obtain ⟨ih1, ih2, ih3⟩ := ih sd1 sd2 hndr h
      refine ⟨?_, ?_, ?_⟩
      · intro k2 hk2
        rcases List.mem_cons.mp hk2 with heq | hmem
        · subst heq
          refine ⟨hcom, ?_⟩
          have hpres := ih2 k2 hknotin
          obtain ⟨thf, hthf, hT, hNT⟩ := hload
          refine ⟨thf, hthf, fun ht => ?_, fun hf => ?_⟩
          · obtain ⟨tt, h1, h2⟩ := hT ht
            exact ⟨tt, h1, by rw [hpres, h2]⟩
          · rw [hpres, hNT hf]
        · obtain ⟨hc1, hl1⟩ := ih1 k2 hmem
          refine ⟨?_, hl1⟩
          obtain ⟨shf, ssd, h1, h2, h3, h4⟩ := hc1
          refine ⟨shf, ssd, h1, ?_, h3, h4⟩
          rw [← hshape k2, h2]
      · intro k2 hk2
        have hne2 : k2 ≠ k := fun he => hk2 (he ▸ List.mem_cons_self k rest)
        have hnr : k2 ∉ rest := fun hm => hk2 (List.mem_cons_of_mem _ hm)
        rw [ih2 k2 hnr, hne k2 hne2]
      · rw [ih3, hfst]

/-- C8. Checkpoint import: a successful import implies the filtered
parameter-name sets (mask buffers excluded) are identical, every one of the
four transposed weight classes was stored transposed, every other tensor was
copied verbatim, and every shape relation was checked; and any key whose
shapes are incompatible (or which is missing from one side) makes the
whole load fail with an error, producing no dict at all (no partial load). -/
theorem checkpoint_import_correct (sd sdHf : StateDict)
    (hnd : (sd.map Prod.fst).Nodup) (hndHf : (sdHf.map Prod.fst).Nodup) :
    (∀ sd2, fromPretrained sd sdHf = .ok sd2 →
      (filteredKeysHf sdHf).Perm (filteredKeys sd) ∧
      (∀ k ∈ filteredKeysHf sdHf, KeyCompatible sd sdHf k ∧ KeyLoaded sd2 sdHf k)) ∧
    ((∃ k ∈ filteredKeysHf sdHf, ¬ KeyCompatible sd sdHf k) →
      ∃ e, fromPretrained sd sdHf = .error e) := by
  have hndkeys : (filteredKeysHf sdHf).Nodup := (hndHf.filter _).filter _
  have hmain : ∀ sd2, fromPretrained sd sdHf = .ok sd2 →
      (filteredKeysHf sdHf).Perm (filteredKeys sd) ∧
      (∀ k ∈ filteredKeysHf sdHf, KeyCompatible sd sdHf k ∧ KeyLoaded sd2 sdHf k) := by
    intro sd2 hok
    unfold fromPretrained at hok
    by_cases hlen : (filteredKeysHf sdHf).length ≠ (filteredKeys sd).length
    · rw [if_pos hlen] at hok; cases hok
    · rw [if_neg hlen] at hok
      push_neg at hlen
      obtain ⟨h1, _, _⟩ := loadKeys_ok_spec sdHf _ sd sd2 hndkeys hok
      refine ⟨?_, h1⟩
      have hsub : filteredKeysHf sdHf ⊆ filteredKeys sd := by
        intro k hk
        obtain ⟨shf, ssd, _, hssd, _, _⟩ := (h1 k hk).1
        have hex : ∃ t, lookupT sd k = some t := by
          unfold shapeAt at hssd
          cases hl : lookupT sd k with
          | none => rw [hl] at hssd; cases hssd
          | some t => exact ⟨t, rfl⟩
        obtain ⟨t, ht⟩ := hex
        have hkmem : k ∈ sd.map Prod.fst := by
          unfold lookupT at ht
          cases hf : sd.find? (fun p => p.1 == k) with
          | none => rw [hf] at ht; cases ht
          | some p =>
            have hp := List.find?_some hf
            have hpm := List.mem_of_find?_eq_some hf
            exact List.mem_map.mpr ⟨p, hpm, by simpa using hp⟩
        have hkf := (List.mem_filter.mp hk).2
        exact List.mem_filter.mpr ⟨hkmem, hkf⟩
      exact (List.subperm_of_subset hndkeys hsub).perm_of_length_le (le_of_eq hlen.symm)
  refine ⟨hmain, ?_⟩
  rintro ⟨k, hk, hnc⟩
  cases hres : fromPretrained sd sdHf with
  | error e => exact ⟨e, rfl⟩
  | ok sd2 => exact absurd ((hmain sd2 hres).2 k hk).1 hnc

/-- Sample freshly-constructed state dict for the C8 witness. -/
def sampleSd : StateDict :=
  [("h.0.attn.c_attn.weight", ⟨[1, 2], [1, 2]⟩),
   ("h.0.attn.bias", ⟨[1], [0]⟩),
   ("ln.bias", ⟨[1], [3]⟩)]

/-- Sample pretrained state dict for the C8 witness. -/
def sampleSdHf : StateDict :=
  [("h.0.attn.c_attn.weight", ⟨[2, 1], [4, 5]⟩),
   ("h.0.attn.masked_bias", ⟨[], []⟩),
   ("ln.bias", ⟨[1], [6]⟩)]

/-- Witness for C8 at a concrete pair of state dicts. -/
theorem checkpoint_import_correct_witness :
    (∀ sd2, fromPretrained sampleSd sampleSdHf = .ok sd2 →
      (filteredKeysHf sampleSdHf).Perm (filteredKeys sampleSd) ∧
      (∀ k ∈ filteredKeysHf sampleSdHf,
        KeyCompatible sampleSd sampleSdHf k ∧ KeyLoaded sd2 sampleSdHf k)) ∧
    ((∃ k ∈ filteredKeysHf sampleSdHf, ¬ KeyCompatible sampleSd sampleSdHf k) →
      ∃ e, fromPretrained sampleSd sampleSdHf = .error e) :=
  checkpoint_import_correct sampleSd sampleSdHf (by decide) (by decide)

/-! ## The language model (GPT, model.py lines 292-376)

The embedding works per batch element (every operation of the forward pass
treats batch elements independently) and in eval mode: each `nn.Dropout` is
the identity (its documented eval-mode semantics), written `id`. The
block-sparse attention module is an external library
(`native_sparse_attention`, imported at lines 23-27) and is represented by a
function parameter `nsa`; theorems that must cross it assume its contract
(spec section 4.2: a context tensor of shape `(batch, sequence, width)`). -/

/-- Embedding of the `LayerNorm` module (model.py lines 37-46):
`F.layer_norm` over the last dimension with eps `1e-5`, scale `w`, optional
bias. -/
def layerNorm (ops : RealOps) (w : Vec) (b : Option Vec) (x : Vec) : Vec :=
  let n : ℚ := (x.length : ℚ)
  let mu := x.sum / n
  let v := (x.map (fun xi => (xi - mu) ^ 2)).sum / n
  let r := ops.rsqrt (v + 1 / 100000)
  match b with
  | some bv => addVec (List.zipWith (fun xi wi => (xi - mu) * r * wi) x w) bv
  | none => List.zipWith (fun xi wi => (xi - mu) * r * wi) x w

/-- Parameters of the `MLP` module (model.py lines 236-243). -/
structure MLPWeights where
  cFcW : Mat
  cFcB : Option Vec
  cProjW : Mat
  cProjB : Option Vec

/-- Forward of `MLP` (model.py lines 245-250), per position; `drop` is the
dropout layer (identity in eval mode). -/
def mlpForward (ops : RealOps) (w : MLPWeights) (drop : Vec → Vec) (x : Vec) : Vec :=
  drop (linear w.cProjW w.cProjB ((linear w.cFcW w.cFcB x).map ops.gelu))

/-- Parameters of one `Block` (model.py lines 252-264). -/
structure BlockWeights where
  ln1W : Vec
  ln1B : Option Vec
  ln2W : Vec
  ln2B : Option Vec
  attn : AttnWeights
  mlp : MLPWeights

/-- The configuration fields `GPT` and its blocks read. `useFlashAttn` is the
resolved value (flag conjoined with primitive availability, resolved at
construction). `invFreq` is the rotary buffer. -/
structure GPTConfigL where
  blockSize : ℕ
  vocabSize : ℕ
  nLayer : ℕ
  nHead : ℕ
  nEmbd : ℕ
  useLayerNorm : Bool
  useRope : Bool
  useFlashAttn : Bool
  useSparseAttn : Bool
  useMqa : Bool
  invFreq : List ℚ

/-- The attention-forward view of the model configuration. -/
def GPTConfigL.attnCfg (cfg : GPTConfigL) : AttnFwdConfig :=
  { nEmbd := cfg.nEmbd, nHead := cfg.nHead, useMqa := cfg.useMqa,
    useRope := cfg.useRope, useFlashAttn := cfg.useFlashAttn,
    invFreq := cfg.invFreq }

/-- Forward of one `Block` (model.py lines 266-269):
`x = x + attn(ln_1(x)); x = x + mlp(ln_2(x))`; the norms are identity
functions when normalization is disabled (lines 255-261). On the sparse path
the attention sub-layer delegates to the external module (line 187) whose
result, like all paths, passes through the (eval-mode identity) residual
dropout. -/
def blockForward (ops : RealOps) (cfg : GPTConfigL) (bw : BlockWeights)
    (nsa : List Vec → List Vec) (x : List Vec) : List Vec :=
  let ln1 : List Vec → List Vec :=
    if cfg.useLayerNorm then fun xs => xs.map (layerNorm ops bw.ln1W bw.ln1B) else id
  let ln2 : List Vec → List Vec :=
    if cfg.useLayerNorm then fun xs => xs.map (layerNorm ops bw.ln2W bw.ln2B) else id
  let attnOut :=
    if cfg.useSparseAttn then nsa (ln1 x)
    else causalSelfAttentionForward ops cfg.attnCfg bw.attn id id (ln1 x)
  let x1 := List.zipWith addVec x attnOut
  let mlpOut := (ln2 x1).map (mlpForward ops bw.mlp id)
  List.zipWith addVec x1 mlpOut

/-- Parameters of `GPT` (model.py lines 300-312). `wte` is simultaneously the
token embedding and (weight-tied, line 312) the `lm_head` weight. -/
structure GPTParams where
  wte : Mat
  wpe : Mat
  blocks : List BlockWeights
  lnfW : Vec
  lnfB : Option Vec

/-- The transformer trunk of `GPT.forward` (model.py lines 349-365), per
batch element: token embedding, position embedding unless rotary, the block
stack, final layer norm. -/
def gptTrunk (ops : RealOps) (cfg : GPTConfigL) (p : GPTParams)
    (nsa : List Vec → List Vec) (row : List ℕ) : List Vec :=
  let tokEmb := row.map (fun tok => p.wte.getD tok [])
  let x :=
    if cfg.useRope then tokEmb
    else List.zipWith addVec tokEmb ((List.range row.length).map (fun i => p.wpe.getD i []))
  let x2 := p.blocks.foldl (fun acc bw => blockForward ops cfg bw nsa acc) x
  x2.map (layerNorm ops p.lnfW p.lnfB)

/-- Cross-entropy with `ignore_index = -1` and mean reduction, the documented
semantics of the `F.cross_entropy` call at model.py line 370: positions whose
label is `-1` contribute neither to the sum nor to the count. -/
def crossEntropyIgnore (ops : RealOps) (logits : List Vec) (targets : List ℤ) : ℚ :=
  let pairs := (logits.zip targets).filter (fun p => p.2 != -1)
  let losses := pairs.map (fun p => ops.log ((p.1.map ops.exp).sum) - p.1.getD p.2.toNat 0)
  losses.sum / (losses.length : ℚ)

/-- Shallow embedding of `GPT.forward` (model.py lines 344-376): the length
assert (line 347) becomes an error; with targets, logits for every position
plus the cross-entropy loss; without targets, logits for only the final
position and no loss. -/
def gptForward (ops : RealOps) (cfg : GPTConfigL) (p : GPTParams)
    (nsa : List Vec → List Vec) (idx : List (List ℕ))
    (targets : Option (List (List ℤ))) :
    Except String (List (List Vec) × Option ℚ) :=
  let t := (idx.headD []).length
  if t > cfg.blockSize then
    .error "AssertionError: Cannot forward sequence, block size exceeded"
  else
    let xs := idx.map (gptTrunk ops cfg p nsa)
    match targets with
    | some tg =>
      let logits := xs.map (fun seq => seq.map (fun v => linear p.wte none v))
      .ok (logits, some (crossEntropyIgnore ops logits.flatten tg.flatten))
    | none =>
      .ok (xs.map (fun seq => [linear p.wte none (seq.getLastD [])]), none)

/-- Modelled from the spec: the contract of the external block-sparse
attention module, whose implementation is not part of this repository —
it consumes `(batch, sequence, width)` input and produces a context tensor of
the same shape (spec sections 1, 4.2). -/
def NsaContract (cfg : GPTConfigL) (nsa : List Vec → List Vec) : Prop :=
  ∀ x : List Vec, (nsa x).length = x.length ∧ ∀ r ∈ nsa x, r.length = cfg.nEmbd

/-- Well-formedness of the parameter shapes, as produced by `GPT.__init__`. -/
def GPTWellFormed (cfg : GPTConfigL) (p : GPTParams) : Prop :=
  p.wte.length = cfg.vocabSize ∧
  (∀ r ∈ p.wte, r.length = cfg.nEmbd) ∧
  p.wpe.length = cfg.blockSize ∧
  (∀ r ∈ p.wpe, r.length = cfg.nEmbd) ∧
  p.lnfW.length = cfg.nEmbd ∧
  (∀ bv, p.lnfB = some bv → bv.length = cfg.nEmbd) ∧
  (∀ bw ∈ p.blocks,
    bw.attn.cProjW.length = cfg.nEmbd ∧
    (∀ bv, bw.attn.cProjB = some bv → bv.length = cfg.nEmbd) ∧
    bw.mlp.cProjW.length = cfg.nEmbd ∧
    (∀ bv, bw.mlp.cProjB = some bv → bv.length = cfg.nEmbd))

lemma addVec_length (a b : Vec) : (addVec a b).length = min a.length b.length := by
  simp [addVec]

lemma mem_zipWith_addVec {l1 l2 : List Vec} {n : ℕ}
    (h1 : ∀ v ∈ l1, v.length = n) (h2 : ∀ v ∈ l2, v.length = n) :
    ∀ v ∈ List.zipWith addVec l1 l2, v.length = n := by
  induction l1 generalizing l2 with
  | nil => intro v hv; simp at hv
  | cons a l1 ih =>
    intro v hv
    cases l2 with
    | nil => simp at hv
    | cons b l2 =>
      rw [List.zipWith_cons_cons] at hv
      rcases List.mem_cons.mp hv with heq | hmem
      · subst heq
        rw [addVec_length, h1 a (List.mem_cons_self _ _), h2 b (List.mem_cons_self _ _),
          min_self]
      · exact ih (fun v hv => h1 v (List.mem_cons_of_mem _ hv))
          (fun v hv => h2 v (List.mem_cons_of_mem _ hv)) v hmem

lemma layerNorm_length (ops : RealOps) (w : Vec) (b : Option Vec) (x : Vec) (n : ℕ)
    (hw : w.length = n) (hx : x.length = n)
    (hb : ∀ bv, b = some bv → bv.length = n) :
    (layerNorm ops w b x).length = n := by
  unfold layerNorm
  cases b with
  | none => simp [hx, hw]
  | some bv => simp [addVec, hx, hw, hb bv rfl]

lemma causalSelfAttentionForward_shape (ops : RealOps) (acfg : AttnFwdConfig)
    (w : AttnWeights) (dropAttn : List (List ℚ) → List (List ℚ)) (x : List Vec)
    (n : ℕ) (hW : w.cProjW.length = n)
    (hb : ∀ bv, w.cProjB = some bv → bv.length = n) :
    (causalSelfAttentionForward ops acfg w dropAttn id x).length = x.length ∧
    ∀ v ∈ causalSelfAttentionForward ops acfg w dropAttn id x, v.length = n := by
  unfold causalSelfAttentionForward
  constructor
  · simp
  · intro v hv
    simp only [id] at hv
    obtain ⟨y, _, rfl⟩ := List.mem_map.mp hv
    rw [linear_length_of_bias _ _ _ (fun bv hbv => by rw [hb bv hbv, hW]), hW]

lemma mlpForward_length (ops : RealOps) (w : MLPWeights) (x : Vec) (n : ℕ)
    (hW : w.cProjW.length = n)
    (hb : ∀ bv, w.cProjB = some bv → bv.length = n) :
    (mlpForward ops w id x).length = n := by
  unfold mlpForward
  simp only [id]
  rw [linear_length_of_bias _ _ _ (fun bv hbv => by rw [hb bv hbv, hW]), hW]

lemma blockForward_shape (ops : RealOps) (cfg : GPTConfigL) (bw : BlockWeights)
    (nsa : List Vec → List Vec) (x : List Vec)
    (hattnW : bw.attn.cProjW.length = cfg.nEmbd)
    (hattnB : ∀ bv, bw.attn.cProjB = some bv → bv.length = cfg.nEmbd)
    (hmlpW : bw.mlp.cProjW.length = cfg.nEmbd)
    (hmlpB : ∀ bv, bw.mlp.cProjB = some bv → bv.length = cfg.nEmbd)
    (hnsa : cfg.useSparseAttn = true → NsaContract cfg nsa)
    (hx : ∀ v ∈ x, v.length = cfg.nEmbd) :
    (blockForward ops cfg bw nsa x).length = x.length ∧
    ∀ v ∈ blockForward ops cfg bw nsa x, v.length = cfg.nEmbd := by
  unfold blockForward
  set ln1 : List Vec → List Vec :=
    if cfg.useLayerNorm then fun xs => xs.map (layerNorm ops bw.ln1W bw.ln1B) else id with hln1
  set ln2 : List Vec → List Vec :=
    if cfg.useLayerNorm then fun xs => xs.map (layerNorm ops bw.ln2W bw.ln2B) else id with hln2
  have hln1len : (ln1 x).length = x.length := by
    rw [hln1]
    cases h : cfg.useLayerNorm <;> simp
  have hattn : (if cfg.useSparseAttn then nsa (ln1 x)
      else causalSelfAttentionForward ops cfg.attnCfg bw.attn id id (ln1 x)).length = x.length ∧
      ∀ v ∈ (if cfg.useSparseAttn then nsa (ln1 x)
        else causalSelfAttentionForward ops cfg.attnCfg bw.attn id id (ln1 x)),
        v.length = cfg.nEmbd := by
    cases hsp : cfg.useSparseAttn with
    | true =>
      rw [if_pos rfl]
      exact ⟨((hnsa hsp) (ln1 x)).1.trans hln1len, ((hnsa hsp) (ln1 x)).2⟩
    | false =>
      rw [if_neg (by simp)]
      have h := causalSelfAttentionForward_shape ops cfg.attnCfg bw.attn id (ln1 x)
        cfg.nEmbd hattnW hattnB
      exact ⟨h.1.trans hln1len, h.2⟩
  have hx1len : (List.zipWith addVec x (if cfg.useSparseAttn then nsa (ln1 x)
      else causalSelfAttentionForward ops cfg.attnCfg bw.attn id id (ln1 x))).length =
      x.length := by
    rw [List.length_zipWith, hattn.1, min_self]
  have hx1rows := mem_zipWith_addVec hx hattn.2
  have hln2len : ∀ y : List Vec, (ln2 y).length = y.length := by
    intro y
    rw [hln2]
    cases h : cfg.useLayerNorm <;> simp
  constructor
  · rw [List.length_zipWith, hx1len, List.length_map, hln2len, hx1len, min_self]
  · refine mem_zipWith_addVec hx1rows ?_
    intro v hv
    obtain ⟨y, _, rfl⟩ := List.mem_map.mp hv
    exact mlpForward_length ops bw.mlp y cfg.nEmbd hmlpW hmlpB

lemma foldl_blocks_shape (ops : RealOps) (cfg : GPTConfigL)
    (nsa : List Vec → List Vec)
    (hnsa : cfg.useSparseAttn = true → NsaContract cfg nsa) :
    ∀ (bs : List BlockWeights) (x : List Vec),
      (∀ bw ∈ bs,
        bw.attn.cProjW.length = cfg.nEmbd ∧
        (∀ bv, bw.attn.cProjB = some bv → bv.length = cfg.nEmbd) ∧
        bw.mlp.cProjW.length = cfg.nEmbd ∧
        (∀ bv, bw.mlp.cProjB = some bv → bv.length = cfg.nEmbd)) →
      (∀ v ∈ x, v.length = cfg.nEmbd) →
      (bs.foldl (fun acc bw => blockForward ops cfg bw nsa acc) x).length = x.length ∧
      ∀ v ∈ bs.foldl (fun acc bw => blockForward ops cfg bw nsa acc) x,
        v.length = cfg.nEmbd := by
  intro bs
  induction bs with
  | nil => intro x _ hx; exact ⟨rfl, hx⟩
  | cons bw rest ih =>
    intro x hbs hx
    obtain ⟨h1, h2, h3, h4⟩ := hbs bw (List.mem_cons_self _ _)
    have hstep := blockForward_shape ops cfg bw nsa x h1 h2 h3 h4 hnsa hx
    have hrest := ih (blockForward ops cfg bw nsa x)
      (fun b hb => hbs b (List.mem_cons_of_mem _ hb)) hstep.2
    rw [List.foldl_cons]
    exact ⟨hrest.1.trans hstep.1, hrest.2⟩

lemma gptTrunk_shape (ops : RealOps) (cfg : GPTConfigL) (p : GPTParams)
    (nsa : List Vec → List Vec) (row : List ℕ)
    (hwf : GPTWellFormed cfg p)
    (hnsa : cfg.useSparseAttn = true → NsaContract cfg nsa)
    (hcap : row.length ≤ cfg.blockSize)
    (htok : ∀ tok ∈ row, tok < cfg.vocabSize) :
    (gptTrunk ops cfg p nsa row).length = row.length ∧
    ∀ v ∈ gptTrunk ops cfg p nsa row, v.length = cfg.nEmbd := by
  obtain ⟨hwte, hwteR, hwpe, hwpeR, hlnf, hlnfB, hblocks⟩ := hwf
  unfold gptTrunk
  have htokEmb : ∀ v ∈ row.map (fun tok => p.wte.getD tok []), v.length = cfg.nEmbd := by
    intro v hv
    obtain ⟨tok, htokm, rfl⟩ := List.mem_map.mp hv
    have hlt : tok < p.wte.length := by rw [hwte]; exact htok tok htokm
    rw [List.getD_eq_getElem _ _ hlt]
    exact hwteR _ (List.getElem_mem hlt)
  set tokEmb := row.map (fun tok => p.wte.getD tok []) with htokdef
  have htokLen : tokEmb.length = row.length := List.length_map _ _
  have hx0 : (if cfg.useRope then tokEmb
      else List.zipWith addVec tokEmb
        ((List.range row.length).map (fun i => p.wpe.getD i []))).length = row.length ∧
      ∀ v ∈ (if cfg.useRope then tokEmb
        else List.zipWith addVec tokEmb
          ((List.range row.length).map (fun i => p.wpe.getD i []))),
        v.length = cfg.nEmbd := by
    cases hr : cfg.useRope with
    | true =>
      rw [if_pos rfl]
      exact ⟨htokLen, htokEmb⟩
    | false =>
      rw [if_neg (by simp)]
      have hpos : ∀ v ∈ (List.range row.length).map (fun i => p.wpe.getD i []),
          v.length = cfg.nEmbd := by
        intro v hv
        obtain ⟨i, him, rfl⟩ := List.mem_map.mp hv
        have hi : i < p.wpe.length := by
          rw [hwpe]
          exact lt_of_lt_of_le (List.mem_range.mp him) hcap
        rw [List.getD_eq_getElem _ _ hi]
        exact hwpeR _ (List.getElem_mem hi)
      constructor
      · rw [List.length_zipWith, htokLen, List.length_map, List.length_range, min_self]
      · exact mem_zipWith_addVec htokEmb hpos
  have hfold := foldl_blocks_shape ops cfg nsa hnsa p.blocks _ hblocks hx0.2
  constructor
  · rw [List.length_map, hfold.1, hx0.1]
  · intro v hv
    obtain ⟨y, hy, rfl⟩ := List.mem_map.mp hv
    exact layerNorm_length ops p.lnfW p.lnfB y cfg.nEmbd hlnf (hfold.2 y hy) hlnfB

/-- C6. For every token-id batch of shape `(b, t)` within capacity (valid
token ids, well-formed parameters, sparse kernel honoring its contract when
selected): with targets, forward returns logits of shape
`(b, t, vocab_size)` together with the cross-entropy loss over all positions
except those labelled `-1`; without targets it returns, with no loss, logits
of shape `(b, 1, vocab_size)` holding exactly the vocabulary projection of
the final trunk position. -/
theorem gpt_forward_shapes_and_loss
    (ops : RealOps) (cfg : GPTConfigL) (p : GPTParams) (nsa : List Vec → List Vec)
    (idx : List (List ℕ)) (b t : ℕ)
    (hwf : GPTWellFormed cfg p)
    (hnsa : cfg.useSparseAttn = true → NsaContract cfg nsa)
    (hb : idx.length = b) (hb1 : 1 ≤ b)
    (ht : ∀ row ∈ idx, row.length = t)
    (ht1 : 1 ≤ t) (hcap : t ≤ cfg.blockSize)
    (htok : ∀ row ∈ idx, ∀ tok ∈ row, tok < cfg.vocabSize) :
    (∀ tg : List (List ℤ), ∃ logits loss,
      gptForward ops cfg p nsa idx (some tg) = .ok (logits, some loss) ∧
      logits.length = b ∧
      (∀ seqL ∈ logits, seqL.length = t ∧ ∀ v ∈ seqL, v.length = cfg.vocabSize) ∧
      loss = crossEntropyIgnore ops logits.flatten tg.flatten) ∧
    (∃ logits,
      gptForward ops cfg p nsa idx none = .ok (logits, none) ∧
      logits.length = b ∧
      (∀ seqL ∈ logits, seqL.length = 1 ∧ ∀ v ∈ seqL, v.length = cfg.vocabSize) ∧
      logits = idx.map (fun row =>
        [linear p.wte none ((gptTrunk ops cfg p nsa row).getLastD [])])) := by
  have hwte : p.wte.length = cfg.vocabSize := hwf.1
  have hguard : ¬ ((idx.headD []).length > cfg.blockSize) := by
    cases idx with
    | nil => simp at hb; omega
    | cons r rest =>
      have hr : r.length = t := ht r (List.mem_cons_self _ _)
      rw [List.headD_cons, hr]
      omega
  have hlmlen : ∀ v : Vec, (linear p.wte none v).length = cfg.vocabSize := by
    intro v
    unfold linear
    rw [List.length_map, hwte]
  constructor
  · intro tg
    refine ⟨(idx.map (gptTrunk ops cfg p nsa)).map
        (fun seq => seq.map (fun v => linear p.wte none v)), _, ?_, ?_, ?_, rfl⟩
    · unfold gptForward
      rw [if_neg hguard]
    · rw [List.length_map, List.length_map, hb]
    · intro seqL hseq
      rw [List.map_map] at hseq
      obtain ⟨row, hrow, rfl⟩ := List.mem_map.mp hseq
      have htrunk := gptTrunk_shape ops cfg p nsa row hwf hnsa
        (le_of_eq_of_le (ht row hrow) hcap) (htok row hrow)
      constructor
      · simp only [Function.comp]
        rw [List.length_map, htrunk.1, ht row hrow]
      · intro v hv
        simp only [Function.comp] at hv
        obtain ⟨y, _, rfl⟩ := List.mem_map.mp hv
        exact hlmlen y
  · refine ⟨(idx.map (gptTrunk ops cfg p nsa)).map
        (fun seq => [linear p.wte none (seq.getLastD [])]), ?_, ?_, ?_, ?_⟩
    · unfold gptForward
      rw [if_neg hguard]
    · rw [List.length_map, List.length_map, hb]
    · intro seqL hseq
      rw [List.map_map] at hseq
      obtain ⟨row, hrow, rfl⟩ := List.mem_map.mp hseq
      refine ⟨rfl, ?_⟩
      intro v hv
      simp only [Function.comp, List.mem_singleton] at hv
      subst hv
      exact hlmlen _
    · rw [List.map_map]
      rfl

/-- Witness model configuration for C6/C7: 1 layer, 1 head, width 1,
capacity 2, vocabulary 2. -/
def tinyCfg : GPTConfigL :=
  { blockSize := 2, vocabSize := 2, nLayer := 1, nHead := 1, nEmbd := 1,
    useLayerNorm := false, useRope := false, useFlashAttn := false,
    useSparseAttn := false, useMqa := false, invFreq := [] }

/-- Witness parameters for C6/C7. -/
def tinyParams : GPTParams :=
  { wte := [[1], [2]], wpe := [[0], [0]],
    blocks := [
      { ln1W := [1], ln1B := none, ln2W := [1], ln2B := none,
        attn := { cAttnW := [[1], [1], [1]], cAttnB := none,
                  cProjW := [[1]], cProjB := none },
        mlp := { cFcW := [[1], [1], [1], [1]], cFcB := none,
                 cProjW := [[1]], cProjB := none } }],
    lnfW := [1], lnfB := none }

lemma tinyWellFormed : GPTWellFormed tinyCfg tinyParams := by
  refine ⟨rfl, by decide, rfl, by decide, rfl, fun bv h => Option.noConfusion h, ?_⟩
  intro bw hbw
  simp only [tinyParams] at hbw
  rw [List.mem_singleton] at hbw
  subst hbw
  exact ⟨rfl, fun bv h => Option.noConfusion h, rfl, fun bv h => Option.noConfusion h⟩

/-- Witness for C6 on the tiny model with batch `[[0, 1]]`. -/
theorem gpt_forward_shapes_and_loss_witness :
    (∀ tg : List (List ℤ), ∃ logits loss,
      gptForward trivialOps tinyCfg tinyParams (fun x => x) [[0, 1]] (some tg) =
        .ok (logits, some loss) ∧
      logits.length = 1 ∧
      (∀ seqL ∈ logits, seqL.length = 2 ∧ ∀ v ∈ seqL, v.length = tinyCfg.vocabSize) ∧
      loss = crossEntropyIgnore trivialOps logits.flatten tg.flatten) ∧
    (∃ logits,
      gptForward trivialOps tinyCfg tinyParams (fun x => x) [[0, 1]] none =
        .ok (logits, none) ∧
      logits.length = 1 ∧
      (∀ seqL ∈ logits, seqL.length = 1 ∧ ∀ v ∈ seqL, v.length = tinyCfg.vocabSize) ∧
      logits = [[0, 1]].map (fun row =>
        [linear tinyParams.wte none
          ((gptTrunk trivialOps tinyCfg tinyParams (fun x => x) row).getLastD [])])) :=
  gpt_forward_shapes_and_loss trivialOps tinyCfg tinyParams (fun x => x) [[0, 1]] 1 2
    tinyWellFormed (fun h => absurd h (by decide)) rfl (by decide) (by decide)
    (by decide) (by decide) (by decide)

/-- C7. For every input whose sequence length exceeds the configured capacity,
the forward pass fails with the assertion-style error, for arbitrary
parameters and either presence of targets — before any computation, and never
by silently truncating the input. -/
theorem gpt_forward_rejects_overlong
    (ops : RealOps) (cfg : GPTConfigL) (p : GPTParams) (nsa : List Vec → List Vec)
    (idx : List (List ℕ)) (targets : Option (List (List ℤ))) (t : ℕ)
    (hb1 : 1 ≤ idx.length)
    (ht : ∀ row ∈ idx, row.length = t)
    (hlong : t > cfg.blockSize) :
    gptForward ops cfg p nsa idx targets =
      .error "AssertionError: Cannot forward sequence, block size exceeded" := by
  unfold gptForward
  cases idx with
  | nil => simp at hb1
  | cons r rest =>
    have hr : r.length = t := ht r (List.mem_cons_self _ _)
    rw [if_pos (by rw [List.headD_cons, hr]; exact hlong)]

/-- Witness for C7: length-3 input against capacity 2. -/
theorem gpt_forward_rejects_overlong_witness :
    gptForward trivialOps tinyCfg tinyParams (fun x => x) [[0, 1, 0]] none =
      .error "AssertionError: Cannot forward sequence, block size exceeded" :=
  gpt_forward_rejects_overlong trivialOps tinyCfg tinyParams (fun x => x)
    [[0, 1, 0]] none 3 (by decide) (by decide) (by decide)

end ModelPy
